import Mathlib

/-!
Verification of the `mini-lambda` dispatch control plane.

This file gives a shallow embedding, in Lean 4, of the parts of the
`mini-lambda` repository that the specification's claims are about:

* the orchestrator's worker registry (`src/crates/orchestrator/src/registry.rs`),
* the pending-job queue (`src/crates/orchestrator/src/queue.rs`),
* the heartbeat handler (`src/crates/orchestrator/src/heartbeat.rs`),
* the dispatch handler and error mapping
  (`src/crates/orchestrator/src/handlers.rs`, `errors.rs`),
* the worker's job-ticket accounting, module cache, submission handlers and
  heartbeat credit computation (`src/crates/worker/src/*.rs`),
* the client's hash-first submission protocol (`src/crates/client/src/main.rs`)
  together with the SHA-256 / hex / base64 encodings it uses
  (`src/crates/proto/src/lib.rs`).

Rust `usize` values are modelled as `Nat` (Rust subtraction that can
underflow is modelled explicitly, see `usizeSub`).  `Uuid` values are
modelled as `Nat`.  `SystemTime` instants are modelled as `Nat`.
A `HashMap` is modelled as the list of its entries in iteration order;
the iteration order of Rust's `HashMap` is unspecified, so theorems
quantify over all orders.
-/

namespace MiniLambda

/-- Rust `usize` subtraction `a - b`, which is a partial operation: it
panics in debug mode (and wraps in release mode) when `b > a`.  We model
the well-defined case with `some` and the underflowing case with `none`. -/
def usizeSub (a b : Nat) : Option Nat :=
  if b ≤ a then some (a - b) else none

/-! ## Orchestrator: worker registry (`registry.rs`) -/

/-- `WorkerInfo` from `registry.rs`: one registry record. -/
structure WorkerInfo where
  endpoint : String
  id : Nat
  credits : Nat
  seq : Nat
  lastSeen : Nat
deriving Repr, DecidableEq

/-- The orchestrator's registry `HashMap<Uuid, WorkerInfo>`, modelled as the
list of its records in (unspecified) iteration order. -/
abbrev WorkerRegistry := List WorkerInfo

namespace WorkerRegistry

/-- `WorkerRegistry::get_worker_info`: look up a record by worker id. -/
def get_worker_info (m : WorkerRegistry) (workerId : Nat) : Option WorkerInfo :=
  m.find? (fun w => w.id == workerId)

/-- The mutation performed by `HashMap::get_mut` + `w.credits = credits` in
`WorkerRegistry::update_credits`: overwrite the credits of the record with
the given id (the map holds at most one such record). -/
def setCredits (m : WorkerRegistry) (workerId credits : Nat) : WorkerRegistry :=
  m.map (fun w => if w.id == workerId then { w with credits := credits } else w)

/-- `WorkerRegistry::update_credits` from `registry.rs` lines 50-58: if a
record with the id exists, set its `credits` field (only) and return `true`,
else return `false` and leave the registry unchanged.  Note that the source
does **not** consult or update `seq` or `last_seen` here. -/
def update_credits (m : WorkerRegistry) (workerId credits : Nat) :
    Bool × WorkerRegistry :=
  if (m.get_worker_info workerId).isSome then
    (true, m.setCredits workerId credits)
  else
    (false, m)

/-- The scanning loop of `WorkerRegistry::pick_and_decrement`
(`registry.rs` lines 73-80): iterate over the records keeping
`chosen_id` / `greatest`, replacing them whenever a record has
`credits > 0` and (`greatest` unset or `credits > greatest`). -/
def pickScan : List WorkerInfo → Option Nat → Option Nat → Option Nat × Option Nat
  | [], chosenId, greatest => (chosenId, greatest)
  | w :: rest, chosenId, greatest =>
    if w.credits > 0 && (match greatest with
        | none => true
        | some g => decide (w.credits > g)) then
      pickScan rest (some w.id) (some w.credits)
    else
      pickScan rest chosenId greatest

/-- `WorkerRegistry::pick_and_decrement` from `registry.rs` lines 67-93:
return `None` on an empty registry; otherwise scan for the chosen record,
return `None` if none was chosen, else decrement the chosen record's
credits and return its id and endpoint.  The result pairs the returned
value with the registry after the call. -/
def pick_and_decrement (m : WorkerRegistry) :
    Option (Nat × String) × WorkerRegistry :=
  if m.isEmpty then (none, m)
  else
    match (pickScan m none none).1 with
    | none => (none, m)
    | some chosen =>
      match m.get_worker_info chosen with
      | none => (none, m)   -- unreachable: the chosen id comes from the map
      | some info =>
        (some (chosen, info.endpoint),
         m.map (fun w => if w.id == chosen then { w with credits := w.credits - 1 } else w))

end WorkerRegistry

/-! ## Orchestrator: pending queue (`queue.rs`) -/

/-- `Job` from `queue.rs`.  The `responder` field is a `tokio`
`oneshot::Sender<String>`; what the orchestrator code can observe of it is
whether the receiver is still present when `send` is called (`send` fails
exactly when the receiver was dropped), which we model as the field
`receiverPresent`. -/
structure Job where
  job_id : Nat
  submitted_at : Nat
  receiverPresent : Bool
deriving Repr, DecidableEq

/-- `PendingQueue` from `queue.rs`: a `VecDeque<Job>` (front = oldest)
plus the configured `max_size`. -/
structure PendingQueue where
  jobs : List Job
  max_size : Nat
deriving Repr, DecidableEq

namespace PendingQueue

/-- `PendingQueue::enqueue` from `queue.rs` lines 28-36: append at the back
if `len < max_size` (returning `Ok`, modelled `true`), else fail
(returning `Err`, modelled `false`) leaving the queue untouched. -/
def enqueue (q : PendingQueue) (j : Job) : Bool × PendingQueue :=
  if q.jobs.length < q.max_size then
    (true, { q with jobs := q.jobs ++ [j] })
  else
    (false, q)

/-- `PendingQueue::dequeue` from `queue.rs` lines 38-41: pop the front. -/
def dequeue (q : PendingQueue) : Option Job × PendingQueue :=
  match q.jobs with
  | [] => (none, q)
  | j :: rest => (some j, { q with jobs := rest })

/-- `PendingQueue::remove_job_by_id` from `queue.rs` lines 43-50: remove and
return the first job with the given id, if any. -/
def remove_job_by_id (q : PendingQueue) (jobId : Nat) : Option Job × PendingQueue :=
  match q.jobs.find? (fun j => j.job_id == jobId) with
  | none => (none, q)
  | some j =>
    (some j, { q with jobs := q.jobs.eraseP (fun j => j.job_id == jobId) })

end PendingQueue

/-! ## Orchestrator: error taxonomy (`errors.rs`) -/

/-- `OrchestratorError` from `errors.rs`. -/
inductive OrchestratorError
  | NoWorkers
  | WorkerNotFound
  | QueueFull
  | Internal
  | RequestTimeout
deriving Repr, DecidableEq

namespace OrchestratorError

/-- The HTTP status chosen by `OrchestratorError::into_response`
(`errors.rs` lines 23-33). -/
def into_response_status : OrchestratorError → Nat
  | NoWorkers => 503
  | WorkerNotFound => 404
  | QueueFull => 429
  | Internal => 500
  | RequestTimeout => 408

end OrchestratorError

/-! ## Orchestrator: heartbeat handler (`heartbeat.rs`) -/

/-- `HeartbeatUpdate` from `proto/src/lib.rs` (the `/heartbeat` payload). -/
structure HeartbeatUpdate where
  worker_id : Nat
  seq : Nat
  credits : Nat
deriving Repr, DecidableEq

/-- The drain loop of `handle_heartbeat_received` (`heartbeat.rs` lines
38-53): while `assigned < credits`, dequeue; stop when the queue is empty;
a send to a departed receiver is logged and not counted, a successful send
increments `assigned`.  Returns the final `assigned` and the remaining
queue contents. -/
def drainLoop (credits : Nat) (assigned : Nat) : List Job → Nat × List Job
  | [] => (assigned, [])
  | j :: rest =>
    if assigned < credits then
      if j.receiverPresent then
        drainLoop credits (assigned + 1) rest
      else
        drainLoop credits assigned rest
    else
      (assigned, j :: rest)

/-- `handle_heartbeat_received` from `heartbeat.rs` lines 15-59, as a
function of the registry, the pending queue and the heartbeat payload.
Returns the handler result (`Ok` is HTTP 200, errors map through
`OrchestratorError::into_response`) together with the registry and queue
after the call.  Faithful to the source: the first step is an
**unconditional** `update_credits` (no comparison of `heartbeat.seq`
with the stored `seq`, and no update of `seq` or `last_seen`). -/
def handle_heartbeat_received (registry : WorkerRegistry) (q : PendingQueue)
    (heartbeat : HeartbeatUpdate) :
    Except OrchestratorError Unit × WorkerRegistry × PendingQueue :=
  let (ok, registry) := registry.update_credits heartbeat.worker_id heartbeat.credits
  if !ok then
    (.error .WorkerNotFound, registry, q)
  else if heartbeat.credits == 0 then
    (.ok (), registry, q)
  else
    match registry.get_worker_info heartbeat.worker_id with
    | none => (.error .WorkerNotFound, registry, q)
    | some _info =>
      let (assigned, jobs) := drainLoop heartbeat.credits 0 q.jobs
      -- `credits.saturating_sub(assigned)`: Rust saturating subtraction on
      -- usize is exactly truncated `Nat` subtraction.
      let remaining_credits := heartbeat.credits - assigned
      let (_, registry) :=
        registry.update_credits heartbeat.worker_id remaining_credits
      (.ok (), registry, { q with jobs := jobs })

/-! ## Orchestrator: dispatch handler (`handlers.rs`) -/

/-- The possible outcomes of `tokio::time::timeout(timeout, rx).await` in
`request_worker` (`handlers.rs` lines 102-121): a value arrived on the
rendezvous, the sender was dropped without a value, or the timeout elapsed. -/
inductive WaitOutcome
  | value (endpoint : String)
  | closed
  | elapsed
deriving Repr, DecidableEq

/-- The response body `OrchestratorSubmitResponse` of `request_worker`. -/
structure OrchestratorSubmitResponse where
  job_id : Nat
  worker_endpoint : String
deriving Repr, DecidableEq

/-- `request_worker` from `handlers.rs` lines 69-123.  `job_id` stands for
the freshly generated `Uuid::new_v4()`, `now` for `SystemTime::now()`, and
`wait` for the outcome of awaiting the rendezvous with the 30 s timeout
(an event decided by the rest of the system).  Returns the handler result
(`Ok` is HTTP 201 with the response body) together with the registry and
the queue after all the mutations this handler itself performs. -/
def request_worker (registry : WorkerRegistry) (q : PendingQueue)
    (job_id : Nat) (now : Nat) (wait : WaitOutcome) :
    Except OrchestratorError OrchestratorSubmitResponse
      × WorkerRegistry × PendingQueue :=
  if registry.length == 0 then
    (.error .NoWorkers, registry, q)
  else
    match registry.pick_and_decrement with
    | (some (_id, endpoint), registry) =>
      (.ok { job_id := job_id, worker_endpoint := endpoint }, registry, q)
    | (none, registry) =>
      let job : Job :=
        { job_id := job_id, submitted_at := now, receiverPresent := true }
      match q.enqueue job with
      | (false, q) => (.error .QueueFull, registry, q)
      | (true, q) =>
        match wait with
        | .value endpoint =>
          (.ok { job_id := job_id, worker_endpoint := endpoint }, registry, q)
        | .closed => (.error .Internal, registry, q)
        | .elapsed =>
          let (_, q) := q.remove_job_by_id job_id
          (.error .RequestTimeout, registry, q)

/-! ## Shared protocol: SHA-256, hex and base64 (`proto/src/lib.rs`)

`hash_wasm_module` in `proto/src/lib.rs` is
`hex::encode(Sha256::digest(module_bytes))`; `serialize_base64` is
`base64::engine::general_purpose::STANDARD.encode(bytes)`.  SHA-256,
lowercase hex and standard base64 (with `=` padding) are embedded below.
Module bytes are modelled as `List Nat` with values below 256. -/

/-- Truncation to a 32-bit word. -/
def w32 (x : Nat) : Nat := x % 4294967296

/-- 32-bit right rotation. -/
def rotr32 (n x : Nat) : Nat := w32 ((x >>> n) ||| (x <<< (32 - n)))

/-- SHA-256 `Ch(e,f,g)`. -/
def sha256Ch (e f g : Nat) : Nat := (e &&& f) ^^^ ((e ^^^ 4294967295) &&& g)

/-- SHA-256 `Maj(a,b,c)`. -/
def sha256Maj (a b c : Nat) : Nat := (a &&& b) ^^^ (a &&& c) ^^^ (b &&& c)

/-- SHA-256 `Σ₀`. -/
def bsig0 (x : Nat) : Nat := rotr32 2 x ^^^ rotr32 13 x ^^^ rotr32 22 x

/-- SHA-256 `Σ₁`. -/
def bsig1 (x : Nat) : Nat := rotr32 6 x ^^^ rotr32 11 x ^^^ rotr32 25 x

/-- SHA-256 `σ₀`. -/
def ssig0 (x : Nat) : Nat := rotr32 7 x ^^^ rotr32 18 x ^^^ (x >>> 3)

/-- SHA-256 `σ₁`. -/
def ssig1 (x : Nat) : Nat := rotr32 17 x ^^^ rotr32 19 x ^^^ (x >>> 10)

/-- The 64 SHA-256 round constants (decimal). -/
def K256 : List Nat :=
  [1116352408, 1899447441, 3049323471, 3921009573, 961987163,
   1508970993, 2453635748, 2870763221, 3624381080, 310598401,
   607225278, 1426881987, 1925078388, 2162078206, 2614888103,
   3248222580, 3835390401, 4022224774, 264347078, 604807628,
   770255983, 1249150122, 1555081692, 1996064986, 2554220882,
   2821834349, 2952996808, 3210313671, 3336571891, 3584528711,
   113926993, 338241895, 666307205, 773529912, 1294757372,
   1396182291, 1695183700, 1986661051, 2177026350, 2456956037,
   2730485921, 2820302411, 3259730800, 3345764771, 3516065817,
   3600352804, 4094571909, 275423344, 430227734, 506948616,
   659060556, 883997877, 958139571, 1322822218, 1537002063,
   1747873779, 1955562222, 2024104815, 2227730452, 2361852424,
   2428436474, 2756734187, 3204031479, 3329325298]

/-- The eight 32-bit hash words of the SHA-256 state. -/
structure Sha256State where
  h0 : Nat
  h1 : Nat
  h2 : Nat
  h3 : Nat
  h4 : Nat
  h5 : Nat
  h6 : Nat
  h7 : Nat
deriving Repr, DecidableEq

/-- The SHA-256 initial hash value (decimal). -/
def sha256Init : Sha256State :=
  ⟨1779033703, 3144134277, 1013904242, 2773480762,
   1359893119, 2600822924, 528734635, 1541459225⟩

/-- `x` as `k` bytes, big-endian. -/
def toBytesBE (k x : Nat) : List Nat :=
  (List.range k).map (fun i => (x >>> (8 * (k - 1 - i))) % 256)

/-- A big-endian byte list as a number. -/
def wordOfBytesBE (bs : List Nat) : Nat :=
  bs.foldl (fun acc b => acc * 256 + b) 0

/-- SHA-256 padding: append `0x80`, zeros up to 56 mod 64, then the
bit length as 8 big-endian bytes. -/
def sha256Pad (msg : List Nat) : List Nat :=
  msg ++ 0x80 :: List.replicate ((119 - msg.length % 64) % 64) 0
      ++ toBytesBE 8 (8 * msg.length)

/-- Split a list into consecutive chunks of `n` elements. -/
def chunksOf (n : Nat) (l : List Nat) : List (List Nat) :=
  if h : l = [] ∨ n = 0 then []
  else l.take n :: chunksOf n (l.drop n)
termination_by l.length
decreasing_by
  push_neg at h
  have hl : 0 < l.length := List.length_pos.mpr h.1
  have hn : 0 < n := Nat.pos_of_ne_zero h.2
  simp only [List.length_drop]
  omega

/-- Extend the 16-word message schedule by `n` further words. -/
def extendSchedule (ws : List Nat) : Nat → List Nat
  | 0 => ws
  | n + 1 =>
    let i := ws.length
    let x := w32 (ssig1 (ws.getD (i - 2) 0) + ws.getD (i - 7) 0
        + ssig0 (ws.getD (i - 15) 0) + ws.getD (i - 16) 0)
    extendSchedule (ws ++ [x]) n

/-- The 64-word message schedule of a 64-byte chunk. -/
def sha256Schedule (chunk : List Nat) : List Nat :=
  extendSchedule ((chunksOf 4 chunk).map wordOfBytesBE) 48

/-- The eight working variables of the SHA-256 compression function. -/
structure Sha256Work where
  a : Nat
  b : Nat
  c : Nat
  d : Nat
  e : Nat
  f : Nat
  g : Nat
  h : Nat
deriving Repr, DecidableEq

/-- One SHA-256 compression round, for a round constant paired with a
schedule word. -/
def sha256Round (st : Sha256Work) (kw : Nat × Nat) : Sha256Work :=
  let t1 := w32 (st.h + bsig1 st.e + sha256Ch st.e st.f st.g + kw.1 + kw.2)
  let t2 := w32 (bsig0 st.a + sha256Maj st.a st.b st.c)
  { a := w32 (t1 + t2), b := st.a, c := st.b, d := st.c,
    e := w32 (st.d + t1), f := st.e, g := st.f, h := st.g }

/-- SHA-256 compression of one 64-byte chunk into the running state. -/
def sha256Compress (H : Sha256State) (chunk : List Nat) : Sha256State :=
  let ws := sha256Schedule chunk
  let f := (K256.zip ws).foldl sha256Round
    ⟨H.h0, H.h1, H.h2, H.h3, H.h4, H.h5, H.h6, H.h7⟩
  ⟨w32 (H.h0 + f.a), w32 (H.h1 + f.b), w32 (H.h2 + f.c), w32 (H.h3 + f.d),
   w32 (H.h4 + f.e), w32 (H.h5 + f.f), w32 (H.h6 + f.g), w32 (H.h7 + f.h)⟩

/-- SHA-256 of a byte list, as its 32-byte digest. -/
def sha256 (msg : List Nat) : List Nat :=
  let Hf := (chunksOf 64 (sha256Pad msg)).foldl sha256Compress sha256Init
  toBytesBE 4 Hf.h0 ++ toBytesBE 4 Hf.h1 ++ toBytesBE 4 Hf.h2
    ++ toBytesBE 4 Hf.h3 ++ toBytesBE 4 Hf.h4 ++ toBytesBE 4 Hf.h5
    ++ toBytesBE 4 Hf.h6 ++ toBytesBE 4 Hf.h7

/-- A lowercase hex digit. -/
def hexDigit (n : Nat) : Char :=
  if n < 10 then Char.ofNat (48 + n) else Char.ofNat (87 + n)

/-- A byte as two lowercase hex characters. -/
def byteToHexChars (b : Nat) : List Char := [hexDigit (b / 16), hexDigit (b % 16)]

/-- `hex::encode`: lowercase hex encoding of a byte list. -/
def hexEncode (bs : List Nat) : String := String.mk (bs.flatMap byteToHexChars)

/-- `hash_wasm_module` from `proto/src/lib.rs`:
`hex::encode(Sha256::digest(module_bytes))`. -/
def hash_wasm_module (module_bytes : List Nat) : String :=
  hexEncode (sha256 module_bytes)

/-- The standard base64 alphabet. -/
def base64Table : List Char :=
  "ABCDEFGHIJKLMNOPQRSTUVWXYZabcdefghijklmnopqrstuvwxyz0123456789+/".data

/-- The base64 character of an index below 64. -/
def b64c (n : Nat) : Char := base64Table.getD n 'A'

/-- Standard base64 encoding of a byte list, as characters, with `=`
padding. -/
def base64Chunks : List Nat → List Char
  | b1 :: b2 :: b3 :: rest =>
    b64c (b1 / 4) :: b64c ((b1 % 4) * 16 + b2 / 16)
      :: b64c ((b2 % 16) * 4 + b3 / 64) :: b64c (b3 % 64) :: base64Chunks rest
  | [b1, b2] =>
    [b64c (b1 / 4), b64c ((b1 % 4) * 16 + b2 / 16), b64c ((b2 % 16) * 4), '=']
  | [b1] => [b64c (b1 / 4), b64c ((b1 % 4) * 16), '=', '=']
  | [] => []

/-- `serialize_base64` from `proto/src/lib.rs`: the wire form of
`module_bytes` in a `JobSubmissionWasm`. -/
def base64Encode (bs : List Nat) : String := String.mk (base64Chunks bs)

/-! ## Worker: errors (`worker/src/errors.rs`) -/

/-- `WorkerError` from `worker/src/errors.rs` (payloads kept as their
messages). -/
inductive WorkerError
  | Validation (msg : String)
  | Compile (msg : String)
  | Execution (msg : String)
  | ModuleNotFound (msg : String)
  | Io (msg : String)
  | JoinError (msg : String)
  | Registration (msg : String)
  | Unregistration (msg : String)
  | Heartbeat (msg : String)
deriving Repr, DecidableEq

namespace WorkerError

/-- The HTTP status chosen by `WorkerError::to_http_response`
(`worker/src/errors.rs`). -/
def to_http_response_status : WorkerError → Nat
  | Validation _ => 400
  | Compile _ => 400
  | Execution _ => 422
  | ModuleNotFound _ => 404
  | Io _ => 500
  | JoinError _ => 500
  | Registration _ => 500
  | Unregistration _ => 500
  | Heartbeat _ => 500

end WorkerError

/-! ## Worker: job tickets (`worker/src/job_ticket.rs`) -/

namespace JobTicket

/-- `JobTicket::acquire`: `counter.fetch_add(1)` — the effect on the
`active_jobs` counter of acquiring a ticket. -/
def acquire (counter : Nat) : Nat := counter + 1

/-- `Drop for JobTicket`: `counter.fetch_sub(1)` — the effect on the
`active_jobs` counter of releasing (dropping) a ticket. -/
def release (counter : Nat) : Nat := counter - 1

end JobTicket

/-- An event on the worker's `active_jobs` counter: a `JobTicket` with
identity `t` is acquired, or a live ticket `t` is dropped.  Rust's
ownership discipline guarantees each ticket is dropped at most once, and
only after it was created; `wfTicketTrace` captures exactly that. -/
inductive TicketEvent
  | acquire (t : Nat)
  | release (t : Nat)
deriving Repr, DecidableEq

/-- Well-formedness of a ticket event trace: starting from the given
`live` tickets (with `used` the identities ever created), every acquired
ticket is fresh and every released ticket is live. -/
def wfTicketTrace (live used : List Nat) : List TicketEvent → Bool
  | [] => true
  | .acquire t :: rest =>
    !(used.contains t) && wfTicketTrace (t :: live) (t :: used) rest
  | .release t :: rest =>
    live.contains t && wfTicketTrace (live.erase t) used rest

/-- The value of the `active_jobs` counter after a ticket event trace:
each acquire is `JobTicket::acquire`, each release is the ticket's `Drop`. -/
def counterAfter (c : Nat) : List TicketEvent → Nat
  | [] => c
  | .acquire _ :: rest => counterAfter (JobTicket.acquire c) rest
  | .release _ :: rest => counterAfter (JobTicket.release c) rest

/-- The live tickets after a ticket event trace. -/
def liveAfter (live : List Nat) : List TicketEvent → List Nat
  | [] => live
  | .acquire t :: rest => liveAfter (t :: live) rest
  | .release t :: rest => liveAfter (live.erase t) rest

/-! ## Worker: WASM execution (`worker/src/runner.rs`) -/

/-- The possible outcomes of the blocking WASM execution inside
`run_wasm_module`'s `spawn_blocking` closure: the module ran and its
captured stdout was read back (`success`), `runner.run_wasm` failed
(`execError`), reading the stdout pipe failed (`ioError`), or the closure
panicked, surfacing as a `JoinError` at the `.await` (`panicked`). -/
inductive ExecOutcome
  | success (stdout : String)
  | execError (msg : String)
  | ioError (msg : String)
  | panicked (msg : String)
deriving Repr, DecidableEq

/-- `run_wasm_module` from `worker/src/runner.rs` lines 10-43, as a
function of the `active_jobs` counter value at entry (the passed `ticket`
is live and counted in it) and of the execution outcome.  The ticket is
moved into the `spawn_blocking` closure (`let _ticket = ticket`) and is
dropped on **every** exit of that closure — normal return, `?` early
return, and unwinding on panic — so the counter is decremented by one on
every path.  Returns the handler-visible result and the counter after. -/
def run_wasm_module (counter : Nat) (outcome : ExecOutcome) :
    Except WorkerError String × Nat :=
  match outcome with
  | .success buf => (.ok buf, JobTicket.release counter)
  | .execError msg => (.error (.Execution msg), JobTicket.release counter)
  | .ioError msg => (.error (.Io msg), JobTicket.release counter)
  | .panicked msg => (.error (.JoinError msg), JobTicket.release counter)

/-! ## Worker: module cache (`worker/src/module_cache.rs`) -/

/-- `ModuleCache<T>` from `worker/src/module_cache.rs`, wrapping
`lru::LruCache<String, Arc<T>>`.  Modelled from the spec: the `lru` crate
is an external dependency whose code is not part of this repository; per
spec §4.6 (and the crate's documented behaviour mirrored by the unit tests
in `module_cache.rs`) it is a fixed-capacity LRU map where `get` returns
the entry and marks it most-recently used, and `put` inserts (promoting an
existing key) and evicts the least-recently-used entry when the capacity
would be exceeded.  `entries` is ordered most-recently-used first. -/
structure ModuleCache (α : Type) where
  entries : List (String × α)
  cap : Nat
deriving Repr, DecidableEq

namespace ModuleCache

/-- `ModuleCache::new_with_capacity`. -/
def new_with_capacity (α : Type) (cap : Nat) : ModuleCache α :=
  { entries := [], cap := cap }

/-- `ModuleCache::new`: capacity 128 (`NonZeroUsize::new(128)`). -/
def new (α : Type) : ModuleCache α := new_with_capacity α 128

/-- `ModuleCache::get`: look the key up; on a hit return the value and
promote the entry to most-recently-used. -/
def get {α : Type} (c : ModuleCache α) (k : String) : Option α × ModuleCache α :=
  match c.entries.find? (fun e => e.1 == k) with
  | none => (none, c)
  | some e =>
    (some e.2,
     { c with entries := (k, e.2) :: c.entries.filter (fun e => !(e.1 == k)) })

/-- `ModuleCache::put`: insert (updating and promoting an existing key);
if the capacity is exceeded, evict the least-recently-used entry. -/
def put {α : Type} (c : ModuleCache α) (k : String) (v : α) : ModuleCache α :=
  let pushed := (k, v) :: c.entries.filter (fun e => !(e.1 == k))
  { c with entries := if pushed.length ≤ c.cap then pushed else pushed.dropLast }

end ModuleCache

/-! ## Worker: submission handlers (`worker/src/submission.rs`) -/

/-- `SubmitResponse` from `proto/src/lib.rs`. -/
structure SubmitResponse where
  job_id : Nat
  message : Option String
deriving Repr, DecidableEq

/-- A compiled `wasmer::Module`; the artifact produced by
`Module::new(&engine, &bytes)` is a function of the module bytes, so it is
represented by those bytes. -/
abbrev WasmModule := List Nat

/-- The outcome of `Module::new(&engine, &module_bytes)` in
`handle_submit_wasm`. -/
inductive CompileOutcome
  | ok
  | fail (msg : String)
deriving Repr, DecidableEq

/-- `handle_submit_hash` from `worker/src/submission.rs` lines 46-73, as a
function of the module cache, the submitted hash, the `active_jobs`
counter (`num_jobs`) and the execution outcome; `job_id` stands for the
fresh `Uuid::new_v4()`.  Returns the handler result and the cache and
counter after the call.  Note the handler never inspects `num_jobs`
before acquiring a ticket: there is no admission bound. -/
def handle_submit_hash {α : Type} (module_cache : ModuleCache α)
    (module_hash : String) (num_jobs : Nat) (exec : ExecOutcome)
    (job_id : Nat) :
    Except WorkerError SubmitResponse × ModuleCache α × Nat :=
  if module_hash.isEmpty then
    (.error (.Validation "empty module hash"), module_cache, num_jobs)
  else
    match module_cache.get module_hash with
    | (none, module_cache) =>
      (.error (.ModuleNotFound module_hash), module_cache, num_jobs)
    | (some _module, module_cache) =>
      let ticket := JobTicket.acquire num_jobs
      match run_wasm_module ticket exec with
      | (.ok buf, num_jobs) =>
        (.ok { job_id := job_id,
               message := some ("job accepted, output: " ++ buf) },
         module_cache, num_jobs)
      | (.error e, num_jobs) => (.error e, module_cache, num_jobs)

/-- `handle_submit_wasm` from `worker/src/submission.rs` lines 12-44, as a
function of the module cache, the submitted bytes, the `active_jobs`
counter, the compile and execution outcomes and the fresh `job_id`.
Returns the handler result and the cache and counter after the call. -/
def handle_submit_wasm (module_cache : ModuleCache WasmModule)
    (module_bytes : List Nat) (num_jobs : Nat) (compile : CompileOutcome)
    (exec : ExecOutcome) (job_id : Nat) :
    Except WorkerError SubmitResponse × ModuleCache WasmModule × Nat :=
  if module_bytes.isEmpty then
    (.error (.Validation "empty wasm module"), module_cache, num_jobs)
  else
    match compile with
    | .fail msg => (.error (.Compile msg), module_cache, num_jobs)
    | .ok =>
      let module : WasmModule := module_bytes
      let module_hash := hash_wasm_module module_bytes
      let module_cache := module_cache.put module_hash module
      let ticket := JobTicket.acquire num_jobs
      match run_wasm_module ticket exec with
      | (.ok buf, num_jobs) =>
        (.ok { job_id := job_id,
               message := some ("job accepted, output: " ++ buf) },
         module_cache, num_jobs)
      | (.error e, num_jobs) => (.error e, module_cache, num_jobs)

/-- The HTTP status of a worker submission handler result (`Ok` responses
carry `StatusCode::CREATED`). -/
def submitStatus {α : Type} (r : Except WorkerError α) : Nat :=
  match r with
  | .ok _ => 201
  | .error e => e.to_http_response_status

/-! ## Worker: lock extent of the submission handlers

The claims about the module-cache mutex concern *when* the lock guard is
released.  In the source both handlers bind the guard with
`let mut module_cache = module_cache.lock().await;`; a Rust `MutexGuard`
bound to a `let` lives until the end of the enclosing scope, which here is
the whole handler body, so the guard is dropped only when the handler
returns — after `run_wasm_module(...).await` has completed.  The event
sequences below transcribe the success path of each handler in source
order, with the release placed where Rust drops the guard. -/

/-- An observable event of a worker submission handler. -/
inductive LockEvent
  | lockAcquire
  | cacheGet
  | cachePut
  | ticketAcquire
  | execRun
  | lockRelease
deriving Repr, DecidableEq

/-- The events of `handle_submit_wasm`'s successful path
(`worker/src/submission.rs` lines 30-43), in order: the guard is taken at
line 30, `put` at line 31, the ticket at line 34, the execution awaited at
line 36, and the guard dropped when the handler returns. -/
def handle_submit_wasm_events : List LockEvent :=
  [.lockAcquire, .cachePut, .ticketAcquire, .execRun, .lockRelease]

/-- The events of `handle_submit_hash`'s successful path
(`worker/src/submission.rs` lines 59-72), in order: the guard is taken at
line 59, `get` at line 60, the ticket at line 63, the execution awaited at
line 65, and the guard dropped when the handler returns. -/
def handle_submit_hash_events : List LockEvent :=
  [.lockAcquire, .cacheGet, .ticketAcquire, .execRun, .lockRelease]

/-! ## Worker: heartbeat credits (`worker/src/heartbeat.rs`) -/

/-- Modelled from the spec: `MAX_CREDITS` is referenced by
`worker/src/heartbeat.rs` as `crate::MAX_CREDITS` but the crate root
defining it is not among the sources; spec §6.3 gives the default
`MAX_CREDITS = 1`. -/
def MAX_CREDITS : Nat := 1

/-- The credit computation of `send_heartbeat`
(`worker/src/heartbeat.rs` line 20):
`let credits = MAX_CREDITS - num_jobs.load(...)`, an unguarded `usize`
subtraction (see `usizeSub`): well-defined only when
`num_jobs ≤ MAX_CREDITS`. -/
def send_heartbeat_credits (num_jobs : Nat) : Option Nat :=
  usizeSub MAX_CREDITS num_jobs

/-! ## Client (`client/src/main.rs`) -/

/-- An HTTP request the client can send to a worker.  The payload of a
`/submit_wasm` request carries the module bytes in their wire form, which
is their base64 encoding (`serialize_base64`). -/
inductive ClientRequest
  | submitHash (module_hash : String) (call_args : List String)
  | submitWasm (module_bytes_b64 : String) (call_args : List String)
deriving Repr, DecidableEq

/-- `submit` from `client/src/main.rs` lines 24-91, run against a worker
with the given module cache and `active_jobs` counter (`compile`, `exec1`,
`exec2` are the worker-side outcomes, `jid1`, `jid2` the worker-side fresh
job ids).  The client computes `hash_wasm_module(bytes)`, posts
`/submit_hash` first, and exactly when that response's status is 404
(NOT_FOUND) posts `/submit_wasm` with the bytes base64-encoded.  Returns
the list of requests sent, in order, and the client-visible result. -/
def clientSubmit (module_cache : ModuleCache WasmModule)
    (wasm_bytes : List Nat) (call_args : List String) (num_jobs : Nat)
    (compile : CompileOutcome) (exec1 exec2 : ExecOutcome) (jid1 jid2 : Nat) :
    List ClientRequest × Except String SubmitResponse :=
  let wasm_hash := hash_wasm_module wasm_bytes
  let (res1, cache1, n1) :=
    handle_submit_hash module_cache wasm_hash num_jobs exec1 jid1
  if submitStatus res1 == 404 then
    let (res2, _, _) :=
      handle_submit_wasm cache1 wasm_bytes n1 compile exec2 jid2
    ([.submitHash wasm_hash call_args,
      .submitWasm (base64Encode wasm_bytes) call_args],
     match res2 with
     | .ok r => .ok r
     | .error _ => .error "submit failed")
  else
    ([.submitHash wasm_hash call_args],
     match res1 with
     | .ok r => .ok r
     | .error _ => .error "submit_hash failed")

/-! ## Operation sequences

Reachable states of the pending queue and of the module cache, for the
invariant claims quantified over "every sequence of operations". -/

/-- An operation on the pending queue. -/
inductive QueueOp
  | enq (j : Job)
  | deq
  | removeById (jobId : Nat)
deriving Repr, DecidableEq

/-- Apply one queue operation (an `enqueue` that fails leaves the queue
unchanged, as in the source). -/
def applyQueueOp (q : PendingQueue) : QueueOp → PendingQueue
  | .enq j => (q.enqueue j).2
  | .deq => q.dequeue.2
  | .removeById jobId => (q.remove_job_by_id jobId).2

/-- Apply a sequence of queue operations. -/
def applyQueueOps (q : PendingQueue) (ops : List QueueOp) : PendingQueue :=
  ops.foldl applyQueueOp q

/-- An operation on the module cache. -/
inductive CacheOp (α : Type)
  | put (k : String) (v : α)
  | get (k : String)

/-- Apply one cache operation. -/
def applyCacheOp {α : Type} (c : ModuleCache α) : CacheOp α → ModuleCache α
  | .put k v => c.put k v
  | .get k => (c.get k).2

/-- Apply a sequence of cache operations. -/
def applyCacheOps {α : Type} (c : ModuleCache α) (ops : List (CacheOp α)) :
    ModuleCache α :=
  ops.foldl applyCacheOp c

/-! ## Queue invariants (claim C5) -/

lemma applyQueueOp_max_size (q : PendingQueue) (op : QueueOp) :
    (applyQueueOp q op).max_size = q.max_size := by
  rcases q with ⟨jobs, ms⟩
  cases op with
  | enq j =>
    simp only [applyQueueOp, PendingQueue.enqueue]
    split <;> rfl
  | deq =>
    cases jobs <;> rfl
  | removeById i =>
    simp only [applyQueueOp, PendingQueue.remove_job_by_id]
    split <;> rfl

lemma applyQueueOp_length_le (q : PendingQueue) (op : QueueOp)
    (h : q.jobs.length ≤ q.max_size) :
    (applyQueueOp q op).jobs.length ≤ q.max_size := by
  rcases q with ⟨jobs, ms⟩
  cases op with
  | enq j =>
    simp only [applyQueueOp, PendingQueue.enqueue]
    split
    · next hlt => simpa using hlt
    · exact h
  | deq =>
    cases jobs with
    | nil => exact h
    | cons j rest =>
      simp only [applyQueueOp, PendingQueue.dequeue, List.length_cons] at h ⊢
      omega
  | removeById i =>
    simp only [applyQueueOp, PendingQueue.remove_job_by_id]
    split
    · exact h
    · exact le_trans (List.Sublist.length_le (List.eraseP_sublist _)) h

lemma applyQueueOps_invariant (ops : List QueueOp) :
    ∀ q : PendingQueue, q.jobs.length ≤ q.max_size →
      (applyQueueOps q ops).max_size = q.max_size ∧
      (applyQueueOps q ops).jobs.length ≤ q.max_size := by
  induction ops with
  | nil => exact fun q h => ⟨rfl, h⟩
  | cons op rest ih =>
    intro q h
    have h1 := applyQueueOp_max_size q op
    have h2 := applyQueueOp_length_le q op h
    have := ih (applyQueueOp q op) (h1 ▸ h2)
    exact ⟨by rw [applyQueueOps] at *; simpa [h1] using this.1,
           by rw [applyQueueOps] at *; simpa [h1] using this.2⟩

/-- C5: for every sequence of enqueue, dequeue and remove_by_id operations
starting from the empty pending queue with capacity `ms`, the queue length
never exceeds `ms`; `enqueue` appends at the back (FIFO) and fails exactly
when the length has reached `ms`, leaving the queue unchanged on failure. -/
theorem claim_C5_queue_bound (ms : Nat) (ops : List QueueOp) (j : Job) :
    (applyQueueOps ⟨[], ms⟩ ops).jobs.length ≤ ms ∧
    (((applyQueueOps ⟨[], ms⟩ ops).enqueue j).1 = false ↔
      (applyQueueOps ⟨[], ms⟩ ops).jobs.length = ms) ∧
    (((applyQueueOps ⟨[], ms⟩ ops).enqueue j).1 = false →
      ((applyQueueOps ⟨[], ms⟩ ops).enqueue j).2 = applyQueueOps ⟨[], ms⟩ ops) ∧
    (((applyQueueOps ⟨[], ms⟩ ops).enqueue j).1 = true →
      ((applyQueueOps ⟨[], ms⟩ ops).enqueue j).2.jobs
        = (applyQueueOps ⟨[], ms⟩ ops).jobs ++ [j]) := by
  obtain ⟨hms, hlen⟩ := applyQueueOps_invariant ops ⟨[], ms⟩ (by simp)
  set q := applyQueueOps ⟨[], ms⟩ ops with hq
  have hq1 : q.max_size = ms := hms
  have hq2 : q.jobs.length ≤ ms := hlen
  by_cases hlt : q.jobs.length < q.max_size
  · refine ⟨hq2, ?_, ?_, ?_⟩
    · simp only [PendingQueue.enqueue, hlt, if_true]
      constructor
      · intro hfalse; cases hfalse
      · intro heq; omega
    · intro hfalse
      simp [PendingQueue.enqueue, hlt] at hfalse
    · intro _
      simp [PendingQueue.enqueue, hlt]
  · refine ⟨hq2, ?_, ?_, ?_⟩
    · simp only [PendingQueue.enqueue, hlt, if_false]
      constructor
      · intro _; omega
      · intro _; trivial
    · intro _
      simp [PendingQueue.enqueue, hlt]
    · intro htrue
      simp [PendingQueue.enqueue, hlt] at htrue

/-! ## Ticket accounting (claim C6) -/

lemma ticket_trace_counter (tr : List TicketEvent) :
    ∀ live used : List Nat, wfTicketTrace live used tr = true →
      counterAfter live.length tr = (liveAfter live tr).length := by
  induction tr with
  | nil => intro live used _; rfl
  | cons ev rest ih =>
    intro live used hwf
    cases ev with
    | acquire t =>
      simp only [wfTicketTrace, Bool.and_eq_true] at hwf
      have := ih (t :: live) (t :: used) hwf.2
      simpa [counterAfter, liveAfter, JobTicket.acquire] using this
    | release t =>
      simp only [wfTicketTrace, Bool.and_eq_true] at hwf
      have hmem : t ∈ live := by
        have := hwf.1
        simpa using this
      have hlen : (live.erase t).length = live.length - 1 :=
        List.length_erase_of_mem hmem
      have := ih (live.erase t) used hwf.2
      rw [hlen] at this
      simpa [counterAfter, liveAfter, JobTicket.release] using this

/-- C6: the `active_jobs` counter is incremented by exactly 1 when a
`JobTicket` is acquired and decremented by exactly 1 when it is released,
on every exit path of `run_wasm_module` (success, execution error, I/O
error, and panic of the WASM thread); consequently, after any well-formed
trace of ticket events the counter equals the number of live tickets. -/
theorem claim_C6_tickets :
    (∀ (tr : List TicketEvent) (live used : List Nat),
        wfTicketTrace live used tr = true →
        counterAfter live.length tr = (liveAfter live tr).length) ∧
    (∀ (counter : Nat) (o : ExecOutcome),
        (run_wasm_module (JobTicket.acquire counter) o).2 = counter) := by
  constructor
  · exact fun tr live used h => ticket_trace_counter tr live used h
  · intro counter o
    cases o <;> simp [run_wasm_module, JobTicket.acquire, JobTicket.release]

/-- Witness for C6 at a concrete trace: two tickets acquired, the first
released; the counter reads 1 and exactly one ticket is live. -/
theorem claim_C6_tickets_witness :
    counterAfter 0 [TicketEvent.acquire 0, TicketEvent.acquire 1, TicketEvent.release 0]
      = (liveAfter [] [TicketEvent.acquire 0, TicketEvent.acquire 1, TicketEvent.release 0]).length := by
  have h := claim_C6_tickets.1
    [TicketEvent.acquire 0, TicketEvent.acquire 1, TicketEvent.release 0] [] [] (by decide)
  simpa using h

/-! ## Registry updates and the heartbeat handler (claims C1, C2) -/

lemma get_worker_info_setCredits (m : WorkerRegistry) (i c : Nat) (w : WorkerInfo)
    (h : m.get_worker_info i = some w) :
    (m.setCredits i c).get_worker_info i = some { w with credits := c } := by
  induction m with
  | nil => simp [WorkerRegistry.get_worker_info] at h
  | cons w0 rest ih =>
    simp only [WorkerRegistry.get_worker_info, WorkerRegistry.setCredits] at h ih ⊢
    by_cases h0 : w0.id = i
    · rw [List.find?_cons_of_pos _ (by simp [h0])] at h
      injection h with hw
      subst hw
      simp only [List.map_cons, if_pos (by simp [h0] : (w0.id == i) = true)]
      rw [List.find?_cons_of_pos _ (by simp [h0])]
    · rw [List.find?_cons_of_neg _ (by simp [h0])] at h
      simp only [List.map_cons, if_neg (by simp [h0] : ¬ (w0.id == i) = true)]
      rw [List.find?_cons_of_neg _ (by simp [h0])]
      exact ih h

lemma drainLoop_spec (q : List Job) : ∀ c a : Nat, a ≤ c →
    ∃ processed : List Job,
      q = processed ++ (drainLoop c a q).2 ∧
      (drainLoop c a q).1 = a + processed.countP (fun j => j.receiverPresent) ∧
      (drainLoop c a q).1 ≤ c ∧
      ((drainLoop c a q).2 ≠ [] → (drainLoop c a q).1 = c) := by
  induction q with
  | nil =>
    intro c a ha
    exact ⟨[], by simp [drainLoop], by simp [drainLoop],
      by simpa [drainLoop] using ha, by simp [drainLoop]⟩
  | cons j rest ih =>
    intro c a ha
    by_cases hlt : a < c
    · by_cases hp : j.receiverPresent
      · have heq : drainLoop c a (j :: rest) = drainLoop c (a + 1) rest := by
          simp [drainLoop, hlt, hp]
        obtain ⟨ps, h1, h2, h3, h4⟩ := ih c (a + 1) hlt
        refine ⟨j :: ps, ?_, ?_, ?_, ?_⟩ <;> rw [heq]
        · rw [List.cons_append, ← h1]
        · rw [h2]; simp [List.countP_cons, hp]; omega
        · exact h3
        · exact h4
      · have heq : drainLoop c a (j :: rest) = drainLoop c a rest := by
          simp [drainLoop, hlt, hp]
        obtain ⟨ps, h1, h2, h3, h4⟩ := ih c a ha
        refine ⟨j :: ps, ?_, ?_, ?_, ?_⟩ <;> rw [heq]
        · rw [List.cons_append, ← h1]
        · rw [h2]; simp [List.countP_cons, hp]
        · exact h3
        · exact h4
    · have heq : drainLoop c a (j :: rest) = (a, j :: rest) := by
        simp [drainLoop, hlt]
      refine ⟨[], by simp [heq], by simp [heq], by simpa [heq] using ha,
        fun _ => by simp [heq]; omega⟩

lemma handle_heartbeat_received_registered (registry : WorkerRegistry)
    (q : PendingQueue) (hb : HeartbeatUpdate) (w : WorkerInfo)
    (hw : registry.get_worker_info hb.worker_id = some w) :
    handle_heartbeat_received registry q hb =
      if hb.credits = 0 then
        (.ok (), registry.setCredits hb.worker_id hb.credits, q)
      else
        (.ok (),
         (registry.setCredits hb.worker_id hb.credits).setCredits hb.worker_id
           (hb.credits - (drainLoop hb.credits 0 q.jobs).1),
         { q with jobs := (drainLoop hb.credits 0 q.jobs).2 }) := by
  have h1 : registry.update_credits hb.worker_id hb.credits
      = (true, registry.setCredits hb.worker_id hb.credits) := by
    simp [WorkerRegistry.update_credits, hw]
  have h2 := get_worker_info_setCredits registry hb.worker_id hb.credits w hw
  by_cases hc : hb.credits = 0
  · have h1z : registry.update_credits hb.worker_id 0
        = (true, registry.setCredits hb.worker_id 0) := hc ▸ h1
    simp [handle_heartbeat_received, hc, h1z]
  · have hcb : (hb.credits == 0) = false := by simpa using hc
    rcases hdr : drainLoop hb.credits 0 q.jobs with ⟨a, js⟩
    have h3 : (registry.setCredits hb.worker_id hb.credits).update_credits
        hb.worker_id (hb.credits - a)
        = (true, (registry.setCredits hb.worker_id hb.credits).setCredits
            hb.worker_id (hb.credits - a)) := by
      simp [WorkerRegistry.update_credits, h2]
    simp [handle_heartbeat_received, h1, hc, hcb, h2, hdr, h3]

/-- C1 counterexample: the orchestrator stores `seq = 5` for worker 1, and
a delayed heartbeat with `seq = 4 ≤ 5` and `credits = 7` arrives.  The
claim says the update is discarded (credits stay 3); the code responds 200
**and overwrites** the credits to 7 — `update_credits` never consults
`seq`. -/
theorem claim_C1_counterexample :
    (handle_heartbeat_received [⟨"http://a:1", 1, 3, 5, 10⟩] ⟨[], 10⟩
        ⟨1, 4, 7⟩).1 = .ok () ∧
    (handle_heartbeat_received [⟨"http://a:1", 1, 3, 5, 10⟩] ⟨[], 10⟩
        ⟨1, 4, 7⟩).2.1 = [⟨"http://a:1", 1, 7, 5, 10⟩] := by
  exact ⟨rfl, rfl⟩

/-- C1 amended: for every heartbeat `(worker_id, seq, credits)` for a
registered worker the orchestrator responds 200 and unconditionally
overwrites the stored credits (with `credits` minus the waiters assigned
by the drain), regardless of how the heartbeat's `seq` compares with the
stored one; the stored `seq` and `last_seen` are never touched, so no
heartbeat is ever discarded as stale and accepted `seq` values are not
strictly increasing. -/
theorem claim_C1_amended (registry : WorkerRegistry) (q : PendingQueue)
    (hb : HeartbeatUpdate) (w : WorkerInfo)
    (hw : registry.get_worker_info hb.worker_id = some w) :
    (handle_heartbeat_received registry q hb).1 = .ok () ∧
    ∃ a, a ≤ hb.credits ∧
      (handle_heartbeat_received registry q hb).2.1.get_worker_info hb.worker_id
        = some { w with credits := hb.credits - a } ∧
      (hb.credits = 0 → a = 0) := by
  rw [handle_heartbeat_received_registered registry q hb w hw]
  by_cases hc : hb.credits = 0
  · refine ⟨by simp [hc], 0, Nat.zero_le _, ?_, fun _ => rfl⟩
    simp only [hc, if_pos rfl]
    simpa [hc] using get_worker_info_setCredits registry hb.worker_id 0 w hw
  · obtain ⟨ps, h1, h2, h3, h4⟩ := drainLoop_spec q.jobs hb.credits 0 (Nat.zero_le _)
    refine ⟨by simp [hc], (drainLoop hb.credits 0 q.jobs).1, h3, ?_,
      fun h0 => absurd h0 hc⟩
    simp only [hc, if_neg hc]
    have h2' := get_worker_info_setCredits registry hb.worker_id hb.credits w hw
    exact get_worker_info_setCredits _ hb.worker_id
      (hb.credits - (drainLoop hb.credits 0 q.jobs).1)
      { w with credits := hb.credits } h2'

/-- Witness for C1 amended: worker 1 stored with `seq = 9`, heartbeat with
`seq = 2` and `credits = 4`, empty queue. -/
theorem claim_C1_amended_witness :
    (handle_heartbeat_received [⟨"http://w:9", 1, 6, 9, 3⟩] ⟨[], 10⟩
        ⟨1, 2, 4⟩).1 = .ok () ∧
    ∃ a, a ≤ 4 ∧
      (handle_heartbeat_received [⟨"http://w:9", 1, 6, 9, 3⟩] ⟨[], 10⟩
          ⟨1, 2, 4⟩).2.1.get_worker_info 1
        = some { endpoint := "http://w:9", id := 1, credits := 4 - a,
                 seq := 9, lastSeen := 3 } ∧
      ((4 : Nat) = 0 → a = 0) :=
  claim_C1_amended [⟨"http://w:9", 1, 6, 9, 3⟩] ⟨[], 10⟩ ⟨1, 2, 4⟩
    ⟨"http://w:9", 1, 6, 9, 3⟩ rfl

/-- C2: for every heartbeat with `credits > 0` from a registered worker,
the handler dequeues a prefix of the pending queue in FIFO order, stopping
when the queue is empty or the number of successfully notified waiters
reaches `credits`; a send whose receiver is gone is not counted toward the
assigned total; and afterwards the worker's registry credits equal
`credits` minus the number of successfully notified waiters. -/
theorem claim_C2_heartbeat_drain (registry : WorkerRegistry) (q : PendingQueue)
    (hb : HeartbeatUpdate) (w : WorkerInfo)
    (hw : registry.get_worker_info hb.worker_id = some w)
    (hc : 0 < hb.credits) :
    ∃ processed remaining : List Job,
      q.jobs = processed ++ remaining ∧
      (handle_heartbeat_received registry q hb).2.2.jobs = remaining ∧
      processed.countP (fun j => j.receiverPresent) ≤ hb.credits ∧
      (remaining ≠ [] →
        processed.countP (fun j => j.receiverPresent) = hb.credits) ∧
      (handle_heartbeat_received registry q hb).2.1.get_worker_info hb.worker_id
        = some { w with
            credits := hb.credits - processed.countP (fun j => j.receiverPresent) } ∧
      (handle_heartbeat_received registry q hb).1 = .ok () := by
  rw [handle_heartbeat_received_registered registry q hb w hw]
  have hc' : ¬ hb.credits = 0 := by omega
  simp only [hc', if_false]
  obtain ⟨ps, h1, h2, h3, h4⟩ := drainLoop_spec q.jobs hb.credits 0 (Nat.zero_le _)
  have hcount : (drainLoop hb.credits 0 q.jobs).1
      = ps.countP (fun j => j.receiverPresent) := by omega
  refine ⟨ps, (drainLoop hb.credits 0 q.jobs).2, h1, by simp, ?_, ?_, ?_, by simp⟩
  · omega
  · intro hne; have := h4 hne; omega
  · have h2' := get_worker_info_setCredits registry hb.worker_id hb.credits w hw
    rw [hcount]
    exact get_worker_info_setCredits _ hb.worker_id
      (hb.credits - ps.countP (fun j => j.receiverPresent))
      { w with credits := hb.credits } h2'

/-- Witness for C2 at a concrete state: worker 1 registered, queue of four
waiters (the second departed), heartbeat with `credits = 2`:
the first three waiters are dequeued, two are notified, one waiter
remains, and the registry credits end at 0. -/
theorem claim_C2_heartbeat_drain_witness :
    ∃ processed remaining : List Job,
      ([⟨1, 0, true⟩, ⟨2, 0, false⟩, ⟨3, 0, true⟩, ⟨4, 0, true⟩] : List Job)
        = processed ++ remaining ∧
      (handle_heartbeat_received [⟨"http://w:1", 1, 5, 0, 0⟩]
          ⟨[⟨1, 0, true⟩, ⟨2, 0, false⟩, ⟨3, 0, true⟩, ⟨4, 0, true⟩], 10⟩
          ⟨1, 1, 2⟩).2.2.jobs = remaining ∧
      processed.countP (fun j => j.receiverPresent) ≤ 2 ∧
      (remaining ≠ [] → processed.countP (fun j => j.receiverPresent) = 2) ∧
      (handle_heartbeat_received [⟨"http://w:1", 1, 5, 0, 0⟩]
          ⟨[⟨1, 0, true⟩, ⟨2, 0, false⟩, ⟨3, 0, true⟩, ⟨4, 0, true⟩], 10⟩
          ⟨1, 1, 2⟩).2.1.get_worker_info 1
        = some { endpoint := "http://w:1", id := 1,
                 credits := 2 - processed.countP (fun j => j.receiverPresent),
                 seq := 0, lastSeen := 0 } ∧
      (handle_heartbeat_received [⟨"http://w:1", 1, 5, 0, 0⟩]
          ⟨[⟨1, 0, true⟩, ⟨2, 0, false⟩, ⟨3, 0, true⟩, ⟨4, 0, true⟩], 10⟩
          ⟨1, 1, 2⟩).1 = .ok () :=
  claim_C2_heartbeat_drain [⟨"http://w:1", 1, 5, 0, 0⟩]
    ⟨[⟨1, 0, true⟩, ⟨2, 0, false⟩, ⟨3, 0, true⟩, ⟨4, 0, true⟩], 10⟩
    ⟨1, 1, 2⟩ ⟨"http://w:1", 1, 5, 0, 0⟩ rfl (by decide)

/-! ## The dispatch picker (claim C3) -/

lemma pickScan_zero (l : List WorkerInfo) (h : ∀ u ∈ l, u.credits = 0) :
    WorkerRegistry.pickScan l none none = (none, none) := by
  induction l with
  | nil => rfl
  | cons w rest ih =>
    have hw : w.credits = 0 := h w (by simp)
    simp only [WorkerRegistry.pickScan]
    rw [if_neg (by simp [hw])]
    exact ih (fun u hu => h u (by simp [hu]))

lemma pickScan_start (l : List WorkerInfo) (h : ∃ u ∈ l, 0 < u.credits) :
    ∃ pre w post, l = pre ++ w :: post ∧ 0 < w.credits ∧
      (∀ u ∈ pre, u.credits = 0) ∧
      WorkerRegistry.pickScan l none none
        = WorkerRegistry.pickScan post (some w.id) (some w.credits) := by
  induction l with
  | nil => simp at h
  | cons w rest ih =>
    by_cases hw : 0 < w.credits
    · refine ⟨[], w, rest, rfl, hw, by simp, ?_⟩
      simp only [WorkerRegistry.pickScan]
      rw [if_pos (by simp [hw])]
    · have hw0 : w.credits = 0 := by omega
      have hrest : ∃ u ∈ rest, 0 < u.credits := by
        obtain ⟨u, hu, hupos⟩ := h
        rcases List.mem_cons.mp hu with rfl | hu'
        · omega
        · exact ⟨u, hu', hupos⟩
      obtain ⟨pre, w', post, heq, hpos, hpre, hscan⟩ := ih hrest
      refine ⟨w :: pre, w', post, by simp [heq], hpos, ?_, ?_⟩
      · intro u hu
        rcases List.mem_cons.mp hu with rfl | hu'
        · exact hw0
        · exact hpre u hu'
      · simp only [WorkerRegistry.pickScan]
        rw [if_neg (by simp [hw0])]
        exact hscan

lemma pickScan_full (l : List WorkerInfo) : ∀ id0 g0 : Nat, 0 < g0 →
    ∃ rid rg, WorkerRegistry.pickScan l (some id0) (some g0)
        = (some rid, some rg) ∧
      g0 ≤ rg ∧ (∀ u ∈ l, u.credits ≤ rg) ∧
      ((rid = id0 ∧ rg = g0) ∨
       (g0 < rg ∧ ∃ pre w post, l = pre ++ w :: post ∧ w.id = rid ∧
          w.credits = rg ∧ (∀ u ∈ pre, u.credits < rg))) := by
  induction l with
  | nil =>
    intro id0 g0 _
    exact ⟨id0, g0, rfl, le_refl _, by simp, Or.inl ⟨rfl, rfl⟩⟩
  | cons w rest ih =>
    intro id0 g0 hg
    by_cases hgt : g0 < w.credits
    · have hpos : 0 < w.credits := by omega
      obtain ⟨rid, rg, hps, hle, hall, hdisj⟩ := ih w.id w.credits hpos
      refine ⟨rid, rg, ?_, by omega, ?_, ?_⟩
      · simp only [WorkerRegistry.pickScan]
        rw [if_pos (by simp [hpos, hgt])]
        exact hps
      · intro u hu
        rcases List.mem_cons.mp hu with rfl | hu'
        · exact hle
        · exact hall u hu'
      · right
        cases hdisj with
        | inl hl =>
          refine ⟨by omega, [], w, rest, rfl, hl.1.symm ▸ rfl, hl.2.symm ▸ rfl,
            by simp⟩
        | inr hr =>
          obtain ⟨hlt, pre, w', post, heq, hid, hcred, hpre⟩ := hr
          refine ⟨by omega, w :: pre, w', post, by simp [heq], hid, hcred, ?_⟩
          intro u hu
          rcases List.mem_cons.mp hu with rfl | hu'
          · omega
          · exact hpre u hu'
    · obtain ⟨rid, rg, hps, hle, hall, hdisj⟩ := ih id0 g0 hg
      have hwle : w.credits ≤ g0 := by omega
      refine ⟨rid, rg, ?_, hle, ?_, ?_⟩
      · simp only [WorkerRegistry.pickScan]
        rw [if_neg (by simp; omega)]
        exact hps
      · intro u hu
        rcases List.mem_cons.mp hu with rfl | hu'
        · omega
        · exact hall u hu'
      · cases hdisj with
        | inl hl => exact Or.inl hl
        | inr hr =>
          obtain ⟨hlt, pre, w', post, heq, hid, hcred, hpre⟩ := hr
          refine Or.inr ⟨hlt, w :: pre, w', post, by simp [heq], hid, hcred, ?_⟩
          intro u hu
          rcases List.mem_cons.mp hu with rfl | hu'
          · omega
          · exact hpre u hu'

lemma get_worker_info_first (pre : List WorkerInfo) (w : WorkerInfo)
    (post : List WorkerInfo) (hpre : ∀ u ∈ pre, u.id ≠ w.id) :
    WorkerRegistry.get_worker_info (pre ++ w :: post) w.id = some w := by
  induction pre with
  | nil =>
    simp only [WorkerRegistry.get_worker_info, List.nil_append]
    rw [List.find?_cons_of_pos _ (by simp)]
  | cons u rest ih =>
    simp only [WorkerRegistry.get_worker_info, List.cons_append]
    rw [List.find?_cons_of_neg _ (by simp [hpre u (by simp)])]
    exact ih (fun v hv => hpre v (by simp [hv]))

lemma map_update_of_not_mem (l : List WorkerInfo) (i : Nat)
    (f : WorkerInfo → WorkerInfo) (h : ∀ u ∈ l, u.id ≠ i) :
    l.map (fun u => if u.id == i then f u else u) = l := by
  induction l with
  | nil => rfl
  | cons u rest ih =>
    simp only [List.map_cons]
    rw [if_neg (by simp [h u (by simp)]), ih (fun v hv => h v (by simp [hv]))]

lemma pick_and_decrement_of_zero (m : WorkerRegistry)
    (h : ∀ u ∈ m, u.credits = 0) :
    m.pick_and_decrement = (none, m) := by
  by_cases hm : m.isEmpty
  · simp [WorkerRegistry.pick_and_decrement, hm]
  · simp [WorkerRegistry.pick_and_decrement, hm, pickScan_zero m h]

lemma pick_and_decrement_of_pos (m : WorkerRegistry)
    (hnd : (m.map WorkerInfo.id).Nodup) (hpos : ∃ u ∈ m, 0 < u.credits) :
    ∃ pre w post, m = pre ++ w :: post ∧ 0 < w.credits ∧
      (∀ u ∈ pre, u.credits < w.credits) ∧ (∀ u ∈ m, u.credits ≤ w.credits) ∧
      m.pick_and_decrement = (some (w.id, w.endpoint),
        pre ++ { w with credits := w.credits - 1 } :: post) := by
  obtain ⟨pre1, w1, post1, heq1, hpos1, hzero1, hscan1⟩ := pickScan_start m hpos
  obtain ⟨rid, rg, hps, hle, hall, hdisj⟩ := pickScan_full post1 w1.id w1.credits hpos1
  have hscan : WorkerRegistry.pickScan m none none = (some rid, some rg) := by
    rw [hscan1, hps]
  -- identify the winning record and its position
  have hmain : ∃ pre w post, m = pre ++ w :: post ∧ w.id = rid ∧ w.credits = rg ∧
      0 < w.credits ∧ (∀ u ∈ pre, u.credits < w.credits) := by
    cases hdisj with
    | inl hl =>
      refine ⟨pre1, w1, post1, heq1, hl.1.symm, hl.2.symm, hpos1, ?_⟩
      intro u hu
      have := hzero1 u hu
      omega
    | inr hr =>
      obtain ⟨hlt, pre2, w2, post2, heq2, hid2, hcred2, hpre2⟩ := hr
      refine ⟨pre1 ++ w1 :: pre2, w2, post2, ?_, hid2, hcred2, by omega, ?_⟩
      · rw [heq1, heq2]; simp
      · intro u hu
        rcases List.mem_append.mp hu with hu' | hu'
        · have := hzero1 u hu'; omega
        · rcases List.mem_cons.mp hu' with rfl | hu''
          · omega
          · have := hpre2 u hu''; omega
  obtain ⟨pre, w, post, heq, hid, hcred, hwpos, hpre⟩ := hmain
  subst hid
  subst hcred
  have hmax : ∀ u ∈ m, u.credits ≤ w.credits := by
    intro u hu
    rw [heq1] at hu
    rcases List.mem_append.mp hu with hu' | hu'
    · have := hzero1 u hu'; omega
    · rcases List.mem_cons.mp hu' with rfl | hu''
      · omega
      · have := hall u hu''; omega
  -- the winner's id occurs exactly once in the registry
  rw [heq] at hnd
  rw [List.map_append, List.map_cons] at hnd
  obtain ⟨hnd1, hnd2, hdisj⟩ := List.nodup_append.mp hnd
  have hwpost : w.id ∉ post.map WorkerInfo.id := (List.nodup_cons.mp hnd2).1
  have hpre_id : ∀ u ∈ pre, u.id ≠ w.id := by
    intro u hu habs
    exact hdisj (a := w.id) (habs ▸ List.mem_map_of_mem WorkerInfo.id hu)
      (List.mem_cons_self _ _)
  have hpost_id : ∀ u ∈ post, u.id ≠ w.id := by
    intro u hu habs
    exact hwpost (habs ▸ List.mem_map_of_mem WorkerInfo.id hu)
  have hne : m.isEmpty = false := by
    rw [heq]; cases pre <;> simp
  have hget : m.get_worker_info w.id = some w := by
    rw [heq]; exact get_worker_info_first pre w post hpre_id
  have hmap : m.map
      (fun u => if u.id == w.id then { u with credits := u.credits - 1 } else u)
      = pre ++ { w with credits := w.credits - 1 } :: post := by
    rw [heq, List.map_append, List.map_cons]
    rw [map_update_of_not_mem pre w.id _ hpre_id,
        map_update_of_not_mem post w.id _ hpost_id]
    simp
  refine ⟨pre, w, post, heq, hwpos, hpre, hmax, ?_⟩
  simp only [WorkerRegistry.pick_and_decrement, hne, Bool.false_eq_true,
    if_false, hscan, hget]
  rw [hmap]

/-- C3 counterexample: two records tie at 5 credits; the record with the
**larger** worker id (2) comes first in the map's iteration order and is
picked, so ties are not broken by lowest `worker_id` as the claim states. -/
theorem claim_C3_counterexample :
    (WorkerRegistry.pick_and_decrement
        [⟨"http://b:2", 2, 5, 0, 0⟩, ⟨"http://a:1", 1, 5, 0, 0⟩]).1
      = some (2, "http://b:2") ∧
    ([⟨"http://b:2", 2, 5, 0, 0⟩, ⟨"http://a:1", 1, 5, 0, 0⟩] :
        WorkerRegistry).map WorkerInfo.credits = [5, 5] ∧
    ([⟨"http://b:2", 2, 5, 0, 0⟩, ⟨"http://a:1", 1, 5, 0, 0⟩] :
        WorkerRegistry).map WorkerInfo.id = [2, 1] := by
  exact ⟨rfl, rfl, rfl⟩

/-- C3 amended: `pick_and_decrement` considers only records with
`credits > 0` and chooses the record with the maximum credits, breaking
ties by the **earliest position in the map's (unspecified) iteration
order** — not by lowest `worker_id`; it decrements exactly that record's
credits by 1 and returns its `(worker_id, endpoint)`; it returns none if
and only if the registry is empty or no record has positive credits, and
then modifies nothing. -/
theorem claim_C3_amended (m : WorkerRegistry)
    (hnd : (m.map WorkerInfo.id).Nodup) :
    (m.pick_and_decrement.1 = none ↔ ∀ u ∈ m, u.credits = 0) ∧
    (m.pick_and_decrement.1 = none → m.pick_and_decrement.2 = m) ∧
    ((∃ u ∈ m, 0 < u.credits) →
      ∃ pre w post, m = pre ++ w :: post ∧ 0 < w.credits ∧
        (∀ u ∈ pre, u.credits < w.credits) ∧
        (∀ u ∈ m, u.credits ≤ w.credits) ∧
        m.pick_and_decrement = (some (w.id, w.endpoint),
          pre ++ { w with credits := w.credits - 1 } :: post)) := by
  by_cases hpos : ∃ u ∈ m, 0 < u.credits
  · obtain ⟨pre, w, post, heq, hwpos, hpre, hmax, hres⟩ :=
      pick_and_decrement_of_pos m hnd hpos
    refine ⟨?_, ?_, fun _ => ⟨pre, w, post, heq, hwpos, hpre, hmax, hres⟩⟩
    · constructor
      · intro hnone
        rw [hres] at hnone
        cases hnone
      · intro hzero
        obtain ⟨u, hu, hupos⟩ := hpos
        have := hzero u hu
        omega
    · intro hnone
      rw [hres] at hnone
      cases hnone
  · have hzero : ∀ u ∈ m, u.credits = 0 := by
      intro u hu
      by_contra hne
      exact hpos ⟨u, hu, by omega⟩
    have hres := pick_and_decrement_of_zero m hzero
    refine ⟨⟨fun _ => hzero, fun _ => by rw [hres]⟩, fun _ => by rw [hres],
      fun habs => absurd habs hpos⟩

/-- Witness for C3 amended at a concrete registry: ids `[3, 1]` with
credits `[2, 7]`; the picker chooses worker 1 (7 credits) and decrements
it to 6. -/
theorem claim_C3_amended_witness :
    ((WorkerRegistry.pick_and_decrement
        [⟨"http://x:3", 3, 2, 0, 0⟩, ⟨"http://y:1", 1, 7, 0, 0⟩]).1 = none ↔
      ∀ u ∈ ([⟨"http://x:3", 3, 2, 0, 0⟩, ⟨"http://y:1", 1, 7, 0, 0⟩] :
          WorkerRegistry), u.credits = 0) ∧
    ((WorkerRegistry.pick_and_decrement
        [⟨"http://x:3", 3, 2, 0, 0⟩, ⟨"http://y:1", 1, 7, 0, 0⟩]).1 = none →
      (WorkerRegistry.pick_and_decrement
        [⟨"http://x:3", 3, 2, 0, 0⟩, ⟨"http://y:1", 1, 7, 0, 0⟩]).2
        = [⟨"http://x:3", 3, 2, 0, 0⟩, ⟨"http://y:1", 1, 7, 0, 0⟩]) ∧
    ((∃ u ∈ ([⟨"http://x:3", 3, 2, 0, 0⟩, ⟨"http://y:1", 1, 7, 0, 0⟩] :
        WorkerRegistry), 0 < u.credits) →
      ∃ pre w post,
        ([⟨"http://x:3", 3, 2, 0, 0⟩, ⟨"http://y:1", 1, 7, 0, 0⟩] :
            WorkerRegistry) = pre ++ w :: post ∧ 0 < w.credits ∧
        (∀ u ∈ pre, u.credits < w.credits) ∧
        (∀ u ∈ ([⟨"http://x:3", 3, 2, 0, 0⟩, ⟨"http://y:1", 1, 7, 0, 0⟩] :
            WorkerRegistry), u.credits ≤ w.credits) ∧
        WorkerRegistry.pick_and_decrement
            [⟨"http://x:3", 3, 2, 0, 0⟩, ⟨"http://y:1", 1, 7, 0, 0⟩]
          = (some (w.id, w.endpoint),
             pre ++ { w with credits := w.credits - 1 } :: post)) :=
  claim_C3_amended [⟨"http://x:3", 3, 2, 0, 0⟩, ⟨"http://y:1", 1, 7, 0, 0⟩]
    (by decide)

/-! ## The dispatch handler (claim C4) -/

lemma pick_and_decrement_none_snd (m : WorkerRegistry)
    (h : m.pick_and_decrement.1 = none) : m.pick_and_decrement.2 = m := by
  unfold WorkerRegistry.pick_and_decrement at h ⊢
  by_cases hm : m.isEmpty
  · simp [hm]
  · simp only [hm, Bool.false_eq_true, if_false] at h ⊢
    cases hscan : (WorkerRegistry.pickScan m none none).1 with
    | none => simp [hscan]
    | some chosen =>
      simp only [hscan] at h ⊢
      cases hget : m.get_worker_info chosen with
      | none => simp [hget]
      | some info => simp [hget] at h

lemma length_beq_zero_false (m : WorkerRegistry) (h : m ≠ []) :
    (m.length == 0) = false := by
  cases m with
  | nil => exact absurd rfl h
  | cons a l => rfl

/-- C4: `/request_worker` fails with `NoWorkers` (503) on an empty
registry; returns 201 with the fresh `job_id` and the picked endpoint when
`pick_and_decrement` succeeds; fails with `QueueFull` (429) when the pick
fails and the queue is full; and otherwise enqueues a waiter and, on a
received endpoint returns 201, on a closed rendezvous fails with
`Internal` (500), and on an elapsed timeout removes the job from the
queue by id and fails with `RequestTimeout` (408). -/
theorem claim_C4_request_worker (registry : WorkerRegistry) (q : PendingQueue)
    (jid now : Nat) (wait : WaitOutcome) :
    (registry = [] →
      request_worker registry q jid now wait
        = (.error .NoWorkers, registry, q)) ∧
    (∀ wid ep reg', registry.pick_and_decrement = (some (wid, ep), reg') →
      request_worker registry q jid now wait
        = (.ok ⟨jid, ep⟩, reg', q)) ∧
    (registry ≠ [] → registry.pick_and_decrement.1 = none →
      ¬ q.jobs.length < q.max_size →
      request_worker registry q jid now wait
        = (.error .QueueFull, registry, q)) ∧
    (registry ≠ [] → registry.pick_and_decrement.1 = none →
      q.jobs.length < q.max_size →
      (∀ ep, wait = .value ep →
        request_worker registry q jid now wait
          = (.ok ⟨jid, ep⟩, registry,
             { q with jobs := q.jobs ++ [⟨jid, now, true⟩] })) ∧
      (wait = .closed →
        request_worker registry q jid now wait
          = (.error .Internal, registry,
             { q with jobs := q.jobs ++ [⟨jid, now, true⟩] })) ∧
      (wait = .elapsed →
        request_worker registry q jid now wait
          = (.error .RequestTimeout, registry,
             (({ q with jobs := q.jobs ++ [⟨jid, now, true⟩] } :
                 PendingQueue).remove_job_by_id jid).2))) ∧
    OrchestratorError.NoWorkers.into_response_status = 503 ∧
    OrchestratorError.QueueFull.into_response_status = 429 ∧
    OrchestratorError.RequestTimeout.into_response_status = 408 ∧
    OrchestratorError.Internal.into_response_status = 500 := by
  refine ⟨?_, ?_, ?_, ?_, rfl, rfl, rfl, rfl⟩
  · intro h
    subst h
    rfl
  · intro wid ep reg' hp
    have hne : registry ≠ [] := by
      intro h
      subst h
      simp [WorkerRegistry.pick_and_decrement] at hp
    have hlen := length_beq_zero_false registry hne
    simp [request_worker, hlen, hp]
  · intro hne hpick hfull
    have hlen := length_beq_zero_false registry hne
    have hp : registry.pick_and_decrement = (none, registry) := by
      have h2 := pick_and_decrement_none_snd registry hpick
      have h3 : registry.pick_and_decrement
          = (registry.pick_and_decrement.1, registry.pick_and_decrement.2) := rfl
      rw [h3, hpick, h2]
    have henq : q.enqueue ⟨jid, now, true⟩ = (false, q) := by
      simp [PendingQueue.enqueue, hfull]
    simp [request_worker, hlen, hp, henq]
  · intro hne hpick hroom
    have hlen := length_beq_zero_false registry hne
    have hp : registry.pick_and_decrement = (none, registry) := by
      have h2 := pick_and_decrement_none_snd registry hpick
      have h3 : registry.pick_and_decrement
          = (registry.pick_and_decrement.1, registry.pick_and_decrement.2) := rfl
      rw [h3, hpick, h2]
    have henq : q.enqueue ⟨jid, now, true⟩
        = (true, { q with jobs := q.jobs ++ [⟨jid, now, true⟩] }) := by
      simp [PendingQueue.enqueue, hroom]
    refine ⟨?_, ?_, ?_⟩
    · intro ep hw
      subst hw
      simp [request_worker, hlen, hp, henq]
    · intro hw
      subst hw
      simp [request_worker, hlen, hp, henq]
    · intro hw
      subst hw
      simp [request_worker, hlen, hp, henq]

/-- Witness for C4 at concrete states: an empty registry yields
`NoWorkers`, and a zero-credit registry with an elapsing wait yields
`RequestTimeout` with the waiter removed from the queue again. -/
theorem claim_C4_request_worker_witness :
    request_worker [] ⟨[], 5⟩ 1 0 .closed = (.error .NoWorkers, [], ⟨[], 5⟩) ∧
    request_worker [⟨"http://e:1", 1, 0, 0, 0⟩] ⟨[], 1⟩ 2 0 .elapsed
      = (.error .RequestTimeout, [⟨"http://e:1", 1, 0, 0, 0⟩], ⟨[], 1⟩) := by
  constructor
  · exact (claim_C4_request_worker [] ⟨[], 5⟩ 1 0 .closed).1 rfl
  · have h := ((claim_C4_request_worker [⟨"http://e:1", 1, 0, 0, 0⟩] ⟨[], 1⟩
      2 0 .elapsed).2.2.2.1 (by simp) rfl (by simp)).2.2 rfl
    exact h.trans rfl

/-! ## Module cache LRU behaviour (claim C8) -/

lemma length_filter_lt_of_mem {α : Type} (l : List α) (p : α → Bool) (e : α)
    (he : e ∈ l) (hpe : p e = false) : (l.filter p).length < l.length := by
  induction l with
  | nil => cases he
  | cons a rest ih =>
    rcases List.mem_cons.mp he with rfl | he'
    · simp only [List.filter_cons, hpe, Bool.false_eq_true, if_false,
        List.length_cons]
      exact Nat.lt_succ_of_le (List.length_filter_le p rest)
    · cases hp : p a with
      | true =>
        simp only [List.filter_cons, hp, if_true, List.length_cons]
        exact Nat.succ_lt_succ (ih he')
      | false =>
        simp only [List.filter_cons, hp, Bool.false_eq_true, if_false,
          List.length_cons]
        exact Nat.lt_succ_of_lt (ih he')

lemma keys_filter_not_mem {α : Type} (entries : List (String × α)) (k : String) :
    k ∉ (entries.filter (fun e => !(e.1 == k))).map Prod.fst := by
  intro h
  obtain ⟨e, he, hek⟩ := List.mem_map.mp h
  have := (List.mem_filter.mp he).2
  simp only [Bool.not_eq_true', beq_eq_false_iff_ne] at this
  exact this hek

lemma keys_filter_nodup {α : Type} (entries : List (String × α))
    (p : (String × α) → Bool) (h : (entries.map Prod.fst).Nodup) :
    ((entries.filter p).map Prod.fst).Nodup :=
  ((entries.filter_sublist).map Prod.fst).nodup h

lemma cacheOp_invariant {α : Type} (c : ModuleCache α) (op : CacheOp α)
    (h1 : (c.entries.map Prod.fst).Nodup) (h2 : c.entries.length ≤ c.cap) :
    (applyCacheOp c op).cap = c.cap ∧
    ((applyCacheOp c op).entries.map Prod.fst).Nodup ∧
    (applyCacheOp c op).entries.length ≤ c.cap := by
  cases op with
  | get k =>
    cases hf : c.entries.find? (fun e => e.1 == k) with
    | none =>
      have hres : applyCacheOp c (CacheOp.get k) = c := by
        simp [applyCacheOp, ModuleCache.get, hf]
      rw [hres]
      exact ⟨rfl, h1, h2⟩
    | some e =>
      have hres : applyCacheOp c (CacheOp.get k)
          = { c with entries :=
              (k, e.2) :: c.entries.filter (fun u => !(u.1 == k)) } := by
        simp [applyCacheOp, ModuleCache.get, hf]
      have hmem := List.mem_of_find?_eq_some hf
      have hkey := List.find?_some hf
      rw [hres]
      refine ⟨rfl, ?_, ?_⟩
      · simp only [List.map_cons]
        exact List.nodup_cons.mpr ⟨keys_filter_not_mem c.entries k,
          keys_filter_nodup c.entries _ h1⟩
      · have hlt := length_filter_lt_of_mem c.entries
          (fun u => !(u.1 == k)) e hmem (by simpa using hkey)
        simp only [List.length_cons]
        omega
  | put k v =>
    by_cases hlen : ((k, v) :: c.entries.filter (fun e => !(e.1 == k))).length
        ≤ c.cap
    · have hres : applyCacheOp c (CacheOp.put k v)
          = { c with entries :=
              (k, v) :: c.entries.filter (fun e => !(e.1 == k)) } := by
        simp only [applyCacheOp, ModuleCache.put]
        rw [if_pos hlen]
      rw [hres]
      refine ⟨rfl, ?_, hlen⟩
      simp only [List.map_cons]
      exact List.nodup_cons.mpr ⟨keys_filter_not_mem c.entries k,
        keys_filter_nodup c.entries _ h1⟩
    · have hres : applyCacheOp c (CacheOp.put k v)
          = { c with entries :=
              ((k, v) :: c.entries.filter (fun e => !(e.1 == k))).dropLast } := by
        simp only [applyCacheOp, ModuleCache.put]
        rw [if_neg hlen]
      rw [hres]
      refine ⟨rfl, ?_, ?_⟩
      · refine ((List.dropLast_sublist _).map Prod.fst).nodup ?_
        simp only [List.map_cons]
        exact List.nodup_cons.mpr ⟨keys_filter_not_mem c.entries k,
          keys_filter_nodup c.entries _ h1⟩
      · have hfle := List.length_filter_le (fun e => !(e.1 == k)) c.entries
        simp only [List.length_dropLast, List.length_cons]
        omega

lemma applyCacheOps_invariant {α : Type} (ops : List (CacheOp α)) :
    ∀ c : ModuleCache α, (c.entries.map Prod.fst).Nodup →
      c.entries.length ≤ c.cap →
      (applyCacheOps c ops).cap = c.cap ∧
      ((applyCacheOps c ops).entries.map Prod.fst).Nodup ∧
      (applyCacheOps c ops).entries.length ≤ c.cap := by
  induction ops with
  | nil => exact fun c h1 h2 => ⟨rfl, h1, h2⟩
  | cons op rest ih =>
    intro c h1 h2
    obtain ⟨g1, g2, g3⟩ := cacheOp_invariant c op h1 h2
    obtain ⟨r1, r2, r3⟩ := ih (applyCacheOp c op) g2 (g1 ▸ g3)
    refine ⟨?_, ?_, ?_⟩
    · show (applyCacheOps (applyCacheOp c op) rest).cap = c.cap
      rw [r1, g1]
    · show ((applyCacheOps (applyCacheOp c op) rest).entries.map Prod.fst).Nodup
      exact r2
    · show (applyCacheOps (applyCacheOp c op) rest).entries.length ≤ c.cap
      rw [g1] at r3
      exact r3

lemma cache_get_isSome_iff {α : Type} (c : ModuleCache α) (k : String) :
    ((c.get k).1).isSome = true ↔ k ∈ c.entries.map Prod.fst := by
  simp only [ModuleCache.get]
  cases hf : c.entries.find? (fun e => e.1 == k) with
  | none =>
    simp only [Option.isSome_none, Bool.false_eq_true, false_iff]
    intro h
    obtain ⟨e, he, hek⟩ := List.mem_map.mp h
    have := List.find?_eq_none.mp hf e he
    simp [hek] at this
  | some e =>
    simp only [Option.isSome_some, true_iff]
    have hmem := List.mem_of_find?_eq_some hf
    have hkey := List.find?_some hf
    exact List.mem_map.mpr ⟨e, hmem, by simpa using hkey⟩

lemma put_get_roundtrip {α : Type} (c : ModuleCache α) (k : String) (v : α)
    (hcap : 1 ≤ c.cap) : ((c.put k v).get k).1 = some v := by
  simp only [ModuleCache.put]
  by_cases hlen : ((k, v) :: c.entries.filter (fun e => !(e.1 == k))).length
      ≤ c.cap
  · rw [if_pos hlen]
    simp only [ModuleCache.get]
    rw [List.find?_cons_of_pos _ (by simp)]
  · rw [if_neg hlen]
    rcases hfil : c.entries.filter (fun e => !(e.1 == k)) with _ | ⟨f, fs⟩
    · rw [hfil] at hlen
      simp at hlen
      omega
    · rw [hfil] at hlen ⊢
      simp only [List.dropLast_cons₂, ModuleCache.get]
      rw [List.find?_cons_of_pos _ (by simp)]

lemma put_evicts_last {α : Type} (c : ModuleCache α) (k : String) (v : α)
    (hnew : k ∉ c.entries.map Prod.fst) (hfull : c.entries.length = c.cap)
    (hcap : 1 ≤ c.cap) :
    (c.put k v).entries = (k, v) :: c.entries.dropLast := by
  have hfil : c.entries.filter (fun e => !(e.1 == k)) = c.entries := by
    apply List.filter_eq_self.mpr
    intro e he
    have : e.1 ≠ k := fun habs =>
      hnew (List.mem_map.mpr ⟨e, he, habs⟩)
    simpa using this
  simp only [ModuleCache.put, hfil]
  rw [if_neg (by simp only [List.length_cons]; omega)]
  rcases hent : c.entries with _ | ⟨e, es⟩
  · rw [hent] at hfull
    simp at hfull
    omega
  · simp [List.dropLast_cons₂]

lemma filter_length_of_nodup {α : Type} (entries : List (String × α))
    (k : String) (hnd : (entries.map Prod.fst).Nodup)
    (hmem : k ∈ entries.map Prod.fst) :
    (entries.filter (fun e => !(e.1 == k))).length = entries.length - 1 := by
  induction entries with
  | nil => simp at hmem
  | cons e rest ih =>
    simp only [List.map_cons, List.nodup_cons] at hnd
    by_cases hek : e.1 = k
    · have hke : k ∉ rest.map Prod.fst := hek ▸ hnd.1
      have hfil : rest.filter (fun e => !(e.1 == k)) = rest := by
        apply List.filter_eq_self.mpr
        intro u hu
        have : u.1 ≠ k := fun habs => hke (List.mem_map.mpr ⟨u, hu, habs⟩)
        simpa using this
      simp [List.filter_cons, hek, hfil]
    · have hmem' : k = e.1 ∨ k ∈ rest.map Prod.fst := by
        simpa only [List.map_cons, List.mem_cons] using hmem
      have hkrest : k ∈ rest.map Prod.fst := by
        rcases hmem' with h | h
        · exact absurd h.symm hek
        · exact h
      have hne : rest ≠ [] := by
        intro habs
        rw [habs] at hkrest
        simp at hkrest
      have hlen : 1 ≤ rest.length := by
        cases rest with
        | nil => exact absurd rfl hne
        | cons a l => simp
      have := ih hnd.2 hkrest
      simp only [List.filter_cons, List.length_cons]
      rw [if_pos (by simpa using hek)]
      simp only [List.length_cons]
      omega

lemma get_recency_protects {α : Type} (c : ModuleCache α) (k k' : String)
    (v' : α) (hnd : (c.entries.map Prod.fst).Nodup)
    (hfull : c.entries.length = c.cap) (hcap : 2 ≤ c.cap)
    (hk : k ∈ c.entries.map Prod.fst) (hk' : k' ∉ c.entries.map Prod.fst) :
    ((((c.get k).2).put k' v').get k).1.isSome = true := by
  -- the hit promotes (k, e.2) to the front
  have hfsome : ∃ e, c.entries.find? (fun e => e.1 == k) = some e := by
    obtain ⟨e, he, hek⟩ := List.mem_map.mp hk
    cases hf : c.entries.find? (fun e => e.1 == k) with
    | none =>
      have := List.find?_eq_none.mp hf e he
      simp [hek] at this
    | some u => exact ⟨u, rfl⟩
  obtain ⟨e, hf⟩ := hfsome
  have hget2 : (c.get k).2.entries
      = (k, e.2) :: c.entries.filter (fun u => !(u.1 == k)) := by
    simp [ModuleCache.get, hf]
  have hflen : (c.entries.filter (fun u => !(u.1 == k))).length
      = c.cap - 1 := by
    rw [filter_length_of_nodup c.entries k hnd hk, hfull]
  -- k' is absent from the promoted cache as well
  have hk'2 : ∀ u ∈ (c.get k).2.entries, u.1 ≠ k' := by
    intro u hu
    rw [hget2] at hu
    rcases List.mem_cons.mp hu with rfl | hu'
    · intro habs
      exact hk' (habs ▸ hk)
    · have hmem := (List.mem_filter.mp hu').1
      intro habs
      exact hk' (List.mem_map.mpr ⟨u, hmem, habs⟩)
  have hfil2 : (c.get k).2.entries.filter (fun u => !(u.1 == k'))
      = (c.get k).2.entries := by
    apply List.filter_eq_self.mpr
    intro u hu
    simpa using hk'2 u hu
  have hcap2 : (c.get k).2.cap = c.cap := by
    simp [ModuleCache.get, hf]
  -- the filtered tail is nonempty, so the eviction keeps (k, e.2)
  rcases hftl : c.entries.filter (fun u => !(u.1 == k)) with _ | ⟨f, fs⟩
  · rw [hftl] at hflen
    simp at hflen
    omega
  · have hkk' : k' ≠ k := fun habs => hk' (habs ▸ hk)
    have hfil3 : ((k, e.2) :: f :: fs).filter (fun u => !(u.1 == k'))
        = (k, e.2) :: f :: fs := by
      have h := hfil2
      rw [hget2, hftl] at h
      exact h
    have hflen' : (f :: fs).length = c.cap - 1 := by
      rw [← hftl]
      exact hflen
    have hput : (((c.get k).2).put k' v').entries
        = (k', v') :: (k, e.2) :: (f :: fs).dropLast := by
      simp only [ModuleCache.put, hget2, hftl, hfil3, hcap2]
      rw [if_neg (by
        simp only [List.length_cons] at hflen' ⊢
        omega)]
      simp [List.dropLast_cons₂]
    set c3 := ((c.get k).2).put k' v' with hc3
    have hfind : c3.entries.find? (fun u => u.1 == k) = some (k, e.2) := by
      rw [hput]
      rw [List.find?_cons_of_neg _ (by simp [hkk'])]
      rw [List.find?_cons_of_pos _ (by simp)]
    simp [ModuleCache.get, hfind]

/-- C8: for every sequence of puts and gets on a `ModuleCache` of capacity
`C` (starting empty), the retrievable keys are pairwise distinct and at
most `C` many, and a key is retrievable exactly when it is stored;
`put(k,v)` immediately followed by `get(k)` returns `v` (capacity ≥ 1);
a `put` of a new key into a full cache evicts exactly the
least-recently-used (last) entry; and `get` updates recency, so a key
read just before an overflowing `put` of a fresh key survives the
eviction. -/
theorem claim_C8_module_cache (α : Type) :
    (∀ (C : Nat) (ops : List (CacheOp α)),
      ((applyCacheOps (ModuleCache.new_with_capacity α C) ops).entries.map
          Prod.fst).Nodup ∧
      (applyCacheOps (ModuleCache.new_with_capacity α C) ops).entries.length
        ≤ C ∧
      (∀ k, (((applyCacheOps (ModuleCache.new_with_capacity α C) ops).get
          k).1).isSome = true ↔
        k ∈ (applyCacheOps (ModuleCache.new_with_capacity α C)
              ops).entries.map Prod.fst)) ∧
    (∀ (c : ModuleCache α) (k : String) (v : α), 1 ≤ c.cap →
      ((c.put k v).get k).1 = some v) ∧
    (∀ (c : ModuleCache α) (k : String) (v : α),
      k ∉ c.entries.map Prod.fst → c.entries.length = c.cap → 1 ≤ c.cap →
      (c.put k v).entries = (k, v) :: c.entries.dropLast) ∧
    (∀ (c : ModuleCache α) (k k' : String) (v' : α),
      (c.entries.map Prod.fst).Nodup → c.entries.length = c.cap →
      2 ≤ c.cap → k ∈ c.entries.map Prod.fst →
      k' ∉ c.entries.map Prod.fst →
      ((((c.get k).2).put k' v').get k).1.isSome = true) := by
  refine ⟨?_, ?_, ?_, ?_⟩
  · intro C ops
    obtain ⟨g1, g2, g3⟩ := applyCacheOps_invariant ops
      (ModuleCache.new_with_capacity α C) (by simp [ModuleCache.new_with_capacity])
      (by simp [ModuleCache.new_with_capacity])
    exact ⟨g2, g3, fun k => cache_get_isSome_iff _ k⟩
  · exact fun c k v h => put_get_roundtrip c k v h
  · exact fun c k v h1 h2 h3 => put_evicts_last c k v h1 h2 h3
  · exact fun c k k' v' h1 h2 h3 h4 h5 =>
      get_recency_protects c k k' v' h1 h2 h3 h4 h5

/-- Witness for C8 at concrete caches over `Nat` values: a round-trip on a
capacity-2 cache, the LRU eviction of a full capacity-2 cache, and
survival of a freshly read key across an overflowing put. -/
theorem claim_C8_module_cache_witness :
    ((((ModuleCache.mk [("a", 1)] 2).put "b" 2).get "b")).1 = some 2 ∧
    ((ModuleCache.mk [("a", 1), ("b", 2)] 2).put "c" 3).entries
      = [("c", 3), ("a", 1)] ∧
    ((((ModuleCache.mk [("a", 1), ("b", 2)] 2).get "b").2.put "c" 3).get
        "b").1.isSome = true := by
  refine ⟨?_, ?_, ?_⟩
  · exact (claim_C8_module_cache Nat).2.1 (ModuleCache.mk [("a", 1)] 2) "b" 2
      (by decide)
  · have h := (claim_C8_module_cache Nat).2.2.1
      (ModuleCache.mk [("a", 1), ("b", 2)] 2) "c" 3 (by decide) (by decide)
      (by decide)
    exact h.trans rfl
  · exact (claim_C8_module_cache Nat).2.2.2
      (ModuleCache.mk [("a", 1), ("b", 2)] 2) "b" "c" 3 (by decide) (by decide)
      (by decide) (by decide) (by decide)

/-! ## Lock extent of the submission handlers (claim C9) -/

/-- C9 counterexample: the claim says the module cache lock is released
before the WASM execution begins, but in both `handle_submit_wasm` and
`handle_submit_hash` the guard is dropped only when the handler returns:
in the event order of both handlers the execution strictly precedes the
lock release (so the release does not precede the execution). -/
theorem claim_C9_counterexample :
    handle_submit_wasm_events.indexOf LockEvent.execRun
        < handle_submit_wasm_events.indexOf LockEvent.lockRelease ∧
    ¬ (handle_submit_wasm_events.indexOf LockEvent.lockRelease
        < handle_submit_wasm_events.indexOf LockEvent.execRun) ∧
    handle_submit_hash_events.indexOf LockEvent.execRun
        < handle_submit_hash_events.indexOf LockEvent.lockRelease ∧
    ¬ (handle_submit_hash_events.indexOf LockEvent.lockRelease
        < handle_submit_hash_events.indexOf LockEvent.execRun) ∧
    LockEvent.execRun ∈ handle_submit_wasm_events ∧
    LockEvent.lockRelease ∈ handle_submit_wasm_events ∧
    LockEvent.execRun ∈ handle_submit_hash_events ∧
    LockEvent.lockRelease ∈ handle_submit_hash_events := by
  decide

/-- C9 amended: in both submission handlers the module cache lock is
acquired first, the cache access happens under it, and the guard is
released only when the handler returns — after the WASM execution — so a
running execution keeps the cache locked. -/
theorem claim_C9_amended :
    (handle_submit_wasm_events.indexOf LockEvent.lockAcquire = 0 ∧
     handle_submit_wasm_events.indexOf LockEvent.cachePut
        < handle_submit_wasm_events.indexOf LockEvent.execRun ∧
     handle_submit_wasm_events.indexOf LockEvent.execRun
        < handle_submit_wasm_events.indexOf LockEvent.lockRelease ∧
     handle_submit_wasm_events.getLast? = some LockEvent.lockRelease) ∧
    (handle_submit_hash_events.indexOf LockEvent.lockAcquire = 0 ∧
     handle_submit_hash_events.indexOf LockEvent.cacheGet
        < handle_submit_hash_events.indexOf LockEvent.execRun ∧
     handle_submit_hash_events.indexOf LockEvent.execRun
        < handle_submit_hash_events.indexOf LockEvent.lockRelease ∧
     handle_submit_hash_events.getLast? = some LockEvent.lockRelease) := by
  decide

/-! ## The hash-first submission protocol (claim C7) -/

lemma toBytesBE_length (k x : Nat) : (toBytesBE k x).length = k := by
  simp [toBytesBE]

lemma sha256_length (msg : List Nat) : (sha256 msg).length = 32 := by
  simp [sha256, toBytesBE]

lemma flatMap_hex_length (bs : List Nat) :
    (bs.flatMap byteToHexChars).length = 2 * bs.length := by
  induction bs with
  | nil => rfl
  | cons b rest ih =>
    simp only [List.flatMap_cons, List.length_append, List.length_cons, ih,
      byteToHexChars, List.length_nil]
    omega

lemma hash_wasm_module_isEmpty (B : List Nat) :
    (hash_wasm_module B).isEmpty = false := by
  rw [Bool.eq_false_iff]
  intro habs
  have h1 : hash_wasm_module B = "" :=
    (String.isEmpty_iff (hash_wasm_module B)).mp habs
  have h2 : ((sha256 B).flatMap byteToHexChars).length = 0 := by
    have : ((sha256 B).flatMap byteToHexChars) = (hash_wasm_module B).data := rfl
    rw [this, h1]
    rfl
  rw [flatMap_hex_length, sha256_length] at h2
  omega

lemma submit_hash_404_iff {α : Type} (c : ModuleCache α) (h : String) (n : Nat)
    (e : ExecOutcome) (jid : Nat) (hne : h.isEmpty = false) :
    (submitStatus (handle_submit_hash c h n e jid).1 = 404
      ↔ (c.get h).1 = none) := by
  rcases hget : c.get h with ⟨o, c'⟩
  cases o with
  | none =>
    simp [handle_submit_hash, hne, hget, submitStatus,
      WorkerError.to_http_response_status]
  | some m =>
    cases e <;>
      simp [handle_submit_hash, hne, hget, submitStatus, run_wasm_module,
        WorkerError.to_http_response_status]

set_option maxRecDepth 4000 in
/-- C7: for every module bytes `B`, the client computes
`hash_wasm_module B = hex(SHA-256(B))` and sends `/submit_hash` first;
the worker's `submit_hash` responds 404 (`ModuleNotFound`) exactly when
that hash is absent from its cache; and the client sends the fallback
`/submit_wasm` carrying `B` base64-encoded exactly when the `/submit_hash`
response was 404. -/
theorem claim_C7_hash_first_protocol (c : ModuleCache WasmModule)
    (B : List Nat) (args : List String) (n : Nat) (co : CompileOutcome)
    (e1 e2 : ExecOutcome) (j1 j2 : Nat) :
    ((clientSubmit c B args n co e1 e2 j1 j2).1.head?
      = some (.submitHash (hash_wasm_module B) args)) ∧
    (submitStatus (handle_submit_hash c (hash_wasm_module B) n e1 j1).1 = 404
      ↔ (c.get (hash_wasm_module B)).1 = none) ∧
    ((clientSubmit c B args n co e1 e2 j1 j2).1
      = if submitStatus (handle_submit_hash c (hash_wasm_module B) n e1 j1).1
          == 404 then
          [.submitHash (hash_wasm_module B) args,
           .submitWasm (base64Encode B) args]
        else
          [.submitHash (hash_wasm_module B) args]) := by
  refine ⟨?_, submit_hash_404_iff c (hash_wasm_module B) n e1 j1
    (hash_wasm_module_isEmpty B), ?_⟩
  · rcases hsh : handle_submit_hash c (hash_wasm_module B) n e1 j1
      with ⟨res1, c1, n1⟩
    by_cases hb : (submitStatus res1 == 404) = true
    · simp [clientSubmit, hsh, hb]
    · simp only [Bool.not_eq_true] at hb
      simp [clientSubmit, hsh, hb]
  · rcases hsh : handle_submit_hash c (hash_wasm_module B) n e1 j1
      with ⟨res1, c1, n1⟩
    by_cases hb : (submitStatus res1 == 404) = true
    · simp [clientSubmit, hsh, hb]
    · simp only [Bool.not_eq_true] at hb
      simp [clientSubmit, hsh, hb]

/-! ## Heartbeat credits underflow (claim C10) -/

/-- C10: the worker's heartbeat computes the reported credits as the
unguarded `usize` subtraction `MAX_CREDITS - active_jobs`, well-defined
exactly when `active_jobs ≤ MAX_CREDITS`; the submission handlers do not
enforce this precondition: `handle_submit_hash` behaves identically for
every value of `active_jobs`, accepts (and acquires a ticket) on a cache
hit regardless of it, and after an accepted request at
`active_jobs = MAX_CREDITS` the counter reads `MAX_CREDITS + 1`, at which
the heartbeat subtraction underflows. -/
theorem claim_C10_credits_underflow :
    (∀ n : Nat, (send_heartbeat_credits n).isSome ↔ n ≤ MAX_CREDITS) ∧
    (∀ (c : ModuleCache WasmModule) (h : String) (n : Nat) (e : ExecOutcome)
        (jid : Nat), h.isEmpty = false → ((c.get h).1).isSome = true →
      (handle_submit_hash c h n e jid).2.2 = n ∧
      submitStatus (handle_submit_hash c h n e jid).1
        = submitStatus (handle_submit_hash c h 0 e jid).1) ∧
    (∀ (c : ModuleCache WasmModule) (h : String) (n : Nat) (s : String)
        (jid : Nat), h.isEmpty = false → ((c.get h).1).isSome = true →
      ∃ r, (handle_submit_hash c h n (.success s) jid).1 = .ok r) ∧
    JobTicket.acquire MAX_CREDITS = MAX_CREDITS + 1 ∧
    send_heartbeat_credits (MAX_CREDITS + 1) = none := by
  refine ⟨?_, ?_, ?_, rfl, by decide⟩
  · intro n
    simp only [send_heartbeat_credits, usizeSub]
    split
    · next hle => simpa using hle
    · next hgt => simpa using hgt
  · intro c h n e jid hne hsome
    obtain ⟨m, hm⟩ := Option.isSome_iff_exists.mp hsome
    obtain ⟨v, c', hget⟩ : ∃ v c', c.get h = (some v, c') := by
      refine ⟨m, (c.get h).2, ?_⟩
      have : (c.get h) = ((c.get h).1, (c.get h).2) := rfl
      rw [this, hm]
    constructor
    · simp only [handle_submit_hash, hne, Bool.false_eq_true, if_false, hget]
      cases e <;>
        simp [run_wasm_module, JobTicket.acquire, JobTicket.release]
    · simp only [handle_submit_hash, hne, Bool.false_eq_true, if_false, hget]
      cases e <;> simp [run_wasm_module]
  · intro c h n s jid hne hsome
    obtain ⟨m, hm⟩ := Option.isSome_iff_exists.mp hsome
    obtain ⟨v, c', hget⟩ : ∃ v c', c.get h = (some v, c') := by
      refine ⟨m, (c.get h).2, ?_⟩
      have : (c.get h) = ((c.get h).1, (c.get h).2) := rfl
      rw [this, hm]
    refine ⟨{ job_id := jid, message := some ("job accepted, output: " ++ s) }, ?_⟩
    simp [handle_submit_hash, hne, hget, run_wasm_module]

/-- Witness for C10 at a concrete state: a one-entry cache, a request at
`active_jobs = MAX_CREDITS = 1`. -/
theorem claim_C10_credits_underflow_witness :
    (handle_submit_hash (ModuleCache.mk [("k", ([] : WasmModule))] 128) "k" 1
        (.success "out") 7).2.2 = 1 := by
  have h := claim_C10_credits_underflow.2.1
    (ModuleCache.mk [("k", ([] : WasmModule))] 128) "k" 1 (.success "out") 7
    (by decide) (by decide)
  exact h.1

end MiniLambda
